import Mathlib

/-!
Verification development for the KHome home-automation hub core
(src/inventory.py, src/scheduler.py, src/actors.py).

The Python code is shallowly embedded: dicts become association lists
(Python 3.7 dicts preserve insertion order, and updating an existing key
keeps its position, which alSet replicates), mutable globals become an
explicit registry state threaded through the operations, machine side
effects that cannot influence the claims (database access, logging, the
message bus) are dropped, and exceptions are modelled with explicit
error results where a claim depends on them.
-/

namespace KHome

/-- Values flowing through the system: an abstraction of the Python values
(strings, numbers and flat JSON-like dicts) carried by signals and responses.
The claims never inspect nested dict values, so dict entries are kept flat. -/
inductive PyVal where
  | str (s : String)
  | int (n : Int)
  | dict (entries : List (String × String))
  deriving Repr, DecidableEq

/-- Lookup in an insertion-ordered association list (Python dict read `d[k]`,
returning none where Python raises KeyError). -/
def alGet {α : Type} (l : List (String × α)) (k : String) : Option α :=
  match l with
  | [] => none
  | (k0, v0) :: rest => if k0 = k then some v0 else alGet rest k

/-- Replacement or insertion in an association list (Python dict write
`d[k] = v`: an existing key keeps its position, a new key is appended). -/
def alSet {α : Type} (l : List (String × α)) (k : String) (v : α) : List (String × α) :=
  match l with
  | [] => [(k, v)]
  | (k0, v0) :: rest => if k0 = k then (k0, v) :: rest else (k0, v0) :: alSet rest k v

/-- Deletion from an association list (Python `del d[k]`; absence is handled
by the callers, which model KeyError explicitly). -/
def alDel {α : Type} (l : List (String × α)) (k : String) : List (String × α) :=
  match l with
  | [] => []
  | (k0, v0) :: rest => if k0 = k then rest else (k0, v0) :: alDel rest k

/-- Key list of an association list, in insertion order (Python dict iteration). -/
def alKeys {α : Type} (l : List (String × α)) : List String :=
  l.map (fun p => p.1)

/-- KHOME_AGENT_INTERFACE negative acknowledgement tag. -/
def NEGATIVE : String := "nack"

/-- TIMEOUT_RESPONSE constant of inventory.py: the fixed payload returned by a
session that timed out. -/
def TIMEOUT_RESPONSE : PyVal := PyVal.dict [(NEGATIVE, "timeout")]

/-- SRCKEY_NOSRC placeholder constant of inventory.py. -/
def SRCKEY_NOSRC : String := "~"

/-- SRCKEY_SYSTEM source key constant of inventory.py used by Generator actors. -/
def SRCKEY_SYSTEM : String := "$"

/-- BOXNAME_MODULE constant of inventory.py: the fixed name of a Module box. -/
def BOXNAME_MODULE : String := "@"

/-! ### NodeSession (inventory.py, NodeSession.start / stop / timeout)

The Python session blocks the calling thread on a lock until either
`stop` is invoked by the transport or the 3-second timer fires.  The
shallow embedding keeps the session and owning-node state that those
methods read and write, and models a blocked `start` call as: run the
field assignments of `start`, then exactly one of `stop result` or
`timeout` runs, then `start` returns `response`. -/

/-- State of a NodeSession together with the liveness flag of its owning Node. -/
structure SessionSt where
  active : Bool
  request : Option PyVal
  response : Option PyVal
  timer_set : Bool
  node_alive : Bool
  deriving Repr, DecidableEq

/-- Field assignments performed by NodeSession.start before the caller blocks. -/
def session_start_begin (st : SessionSt) (message : PyVal) : SessionSt :=
  { st with active := true, request := some message, response := none, timer_set := true }

/-- NodeSession.stop: records the result, cancels the timer, releases the caller. -/
def session_stop (st : SessionSt) (result : PyVal) : SessionSt :=
  { st with active := false, response := some result, timer_set := false }

/-- NodeSession.timeout: if still active, marks the node not alive and stops the
session with TIMEOUT_RESPONSE. -/
def session_timeout (st : SessionSt) : SessionSt :=
  if st.active then session_stop { st with node_alive := false } TIMEOUT_RESPONSE
  else st

/-- Value returned by the blocked NodeSession.start call once it is released:
the response recorded by whichever of stop/timeout ran. -/
def session_return (st : SessionSt) : Option PyVal :=
  st.response

/-! ### Actor configuration and fallible construction
(inventory.py Actor/Handler, actors.py Average/LogThingSpeak) -/

/-- Fields of the `data` sub-dictionary of an actor configuration that the
embedded code reads; a `none` field models absence of the dict key. -/
structure ActorCfgData where
  src : Option String
  src_mdl : Option String
  box : Option String
  key : Option String
  active : Option Bool
  deriving Repr, DecidableEq

/-- Actor configuration: the `type` tag and the `data` payload. -/
structure ActorCfg where
  type : String
  data : ActorCfgData
  deriving Repr, DecidableEq

/-- Behavioural role of an actor: Handler carries the mandatory `src` (and the
optional `src_mdl`) from its configuration; Generator has no upstream source. -/
inductive AKind where
  | handlerK (src : String) (src_mdl : Option String)
  | generatorK
  deriving Repr, DecidableEq

/-- Registry view of a constructed actor: identity, role, optional box name,
active flag, and the mutable source key (empty until set_src_key runs). -/
structure RActor where
  id : String
  kind : AKind
  box_name : Option String
  active : Bool
  src_key : String
  deriving Repr, DecidableEq

/-- Handler construction (Handler.__new__ plus Actor.__init__): returns none
when the mandatory `src` field is absent from the configuration data. -/
def handler_new (cfg : ActorCfg) (db_id : String) : Option RActor :=
  match cfg.data.src with
  | some s =>
      some { id := db_id
             kind := AKind.handlerK s cfg.data.src_mdl
             box_name := cfg.data.box
             active := cfg.data.active.getD true
             src_key := "" }
  | none => none

/-- Generator construction (Actor.__init__ on a Generator subclass such as
Schedule; no mandatory field). -/
def generator_new (cfg : ActorCfg) (db_id : String) : RActor :=
  { id := db_id
    kind := AKind.generatorK
    box_name := cfg.data.box
    active := cfg.data.active.getD true
    src_key := "" }

/-- Average construction (actors.py Average.__new__): none when `box` is absent,
otherwise it defers to the Handler constructor chain. -/
def average_new (cfg : ActorCfg) (db_id : String) : Option RActor :=
  match cfg.data.box with
  | some _ => handler_new cfg db_id
  | none => none

/-- LogThingSpeak construction (actors.py LogThingSpeak.__new__): none when
`key` is absent, otherwise it defers to the Handler constructor chain. -/
def log_thing_speak_new (cfg : ActorCfg) (db_id : String) : Option RActor :=
  match cfg.data.key with
  | some _ => handler_new cfg db_id
  | none => none

/-! ### Entity registry (inventory.py globals and module-level functions)

The module-level globals `revision`, `nodes`, `actors`, `handlers`, `boxes`
become one explicit state record.  DB access inside the operations
(store_module, forget_module, Actor.store_db, Actor.delete_db) only logs and
is dropped.  Python exceptions that the claims depend on (KeyError from
`del d[k]` on a missing key, ValueError from `list.remove` on a missing
element) are modelled with explicit error results. -/

/-- Node configuration: the `id` field that Node construction extracts. -/
structure NodeCfg where
  id : String
  deriving Repr, DecidableEq

/-- Module configuration: the alias field `a` that Module construction
extracts (pin, type and period play no part in the claims). -/
structure ModuleCfg where
  a : String
  deriving Repr, DecidableEq

/-- Module.form_src_key: `nid/mal` when the alias is non-empty, else `nid`
(Python truthiness of the empty string). -/
def form_src_key (nid mal : String) : String :=
  if mal = "" then nid else nid ++ "/" ++ mal

/-- Registry view of a Module: alias, hosting node and derived source key;
its single box is named BOXNAME_MODULE. -/
structure RModule where
  id : String
  nid : String
  src_key : String
  deriving Repr, DecidableEq

/-- Registry view of a Node: identity and insertion-ordered module map. -/
structure RNode where
  id : String
  modules : List (String × RModule)
  deriving Repr, DecidableEq

/-- Owner of a registered Box: the hosting Module or the hosting Actor. -/
inductive BoxOwner where
  | moduleB (nid mal : String)
  | actorB (aid : String)
  deriving Repr, DecidableEq

/-- Python exceptions distinguished by the embedding: KeyError (dict access)
and ValueError (list.remove). -/
inductive PyErr where
  | keyError
  | valueError
  deriving Repr, DecidableEq

/-- Registry state: the inventory.py globals revision, nodes, actors,
handlers (handler key to actor ids in registration order) and boxes
(source key to a name-indexed bucket of box owners). -/
structure Inv where
  revision : Nat
  nodes : List (String × RNode)
  actors : List (String × RActor)
  handlers : List (String × List String)
  boxes : List (String × List (String × BoxOwner))
  deriving Repr, DecidableEq

/-- Empty registry at process start. -/
def inv_init : Inv :=
  { revision := 0, nodes := [], actors := [], handlers := [], boxes := [] }

/-- Mark that some changes in inventory have been made (inventory.py changed()). -/
def changed (st : Inv) : Inv :=
  { st with revision := st.revision + 1 }

/-- Update the stored source key of one actor in the registry. -/
def set_actor_key (st : Inv) (aid : String) (k : String) : Inv :=
  match alGet st.actors aid with
  | some a => { st with actors := alSet st.actors aid { a with src_key := k } }
  | none => st

/-- Actor.set_src_key as a state transformer (the Handler override follows a
chain of actors and mutates the source key of every actor it resolves
through; the Generator override assigns the system key).  The fuel bounds the
chain length: Python recursion on a cyclic configuration never terminates,
which the embedding maps to the placeholder key at fuel 0. -/
def set_src_key (fuel : Nat) (st : Inv) (aid : String) : Inv × String :=
  match fuel with
  | 0 => (st, SRCKEY_NOSRC)
  | Nat.succ fuel =>
    match alGet st.actors aid with
    | none => (st, SRCKEY_NOSRC)
    | some a =>
      match a.kind with
      | AKind.generatorK => (set_actor_key st aid SRCKEY_SYSTEM, SRCKEY_SYSTEM)
      | AKind.handlerK data_src src_mdl =>
        match src_mdl with
        | some m => (set_actor_key st aid (form_src_key data_src m), form_src_key data_src m)
        | none =>
          if (alGet st.actors data_src).isSome then
            let r := set_src_key fuel st data_src
            (set_actor_key r.1 aid r.2, r.2)
          else
            (set_actor_key st aid SRCKEY_NOSRC, SRCKEY_NOSRC)

/-- Handler.get_handler_key: the declared source, `form_src_key(src, src_mdl)`
with an empty alias when `src_mdl` is absent. -/
def get_handler_key (src : String) (src_mdl : Option String) : String :=
  form_src_key src (src_mdl.getD "")

/-- Private helper __register_box: adds a box under the given source key,
creating the bucket on KeyError. -/
def register_box (st : Inv) (key : String) (name : String) (owner : BoxOwner) : Inv :=
  match alGet st.boxes key with
  | some bucket => { st with boxes := alSet st.boxes key (alSet bucket name owner) }
  | none => { st with boxes := alSet st.boxes key [(name, owner)] }

/-- Private helper __register_handler: appends a Handler-role actor to the
bucket of its handler key (non-Handler actors are not indexed). -/
def register_handler (st : Inv) (a : RActor) : Inv :=
  match a.kind with
  | AKind.handlerK src src_mdl =>
    let key := get_handler_key src src_mdl
    match alGet st.handlers key with
    | some bucket => { st with handlers := alSet st.handlers key (bucket ++ [a.id]) }
    | none => { st with handlers := alSet st.handlers key [a.id] }
  | AKind.generatorK => st

/-- register_node: creation-only registration keyed by the configured id;
a duplicate id returns none and changes nothing. -/
def register_node (st : Inv) (cfg : NodeCfg) : Inv × Option RNode :=
  let new_node : RNode := { id := cfg.id, modules := [] }
  if (alGet st.nodes cfg.id).isSome then
    (st, none)
  else
    (changed { st with nodes := alSet st.nodes cfg.id new_node }, some new_node)

/-- Node.add_module: constructs the Module from its configuration and adds it
to the node module map unless the alias already exists. -/
def add_module (node : RNode) (cfg : ModuleCfg) : Option (RNode × RModule) :=
  let new_module : RModule :=
    { id := cfg.a, nid := node.id, src_key := form_src_key node.id cfg.a }
  if (alGet node.modules new_module.id).isSome then
    none
  else
    some ({ node with modules := alSet node.modules new_module.id new_module }, new_module)

/-- register_module: delegates to Node.add_module; on success bumps the
revision and indexes the module box under the module source key.  The node is
addressed by id (the Python caller holds the Node object of the registry). -/
def register_module (st : Inv) (nid : String) (cfg : ModuleCfg) : Inv × Option RModule :=
  match alGet st.nodes nid with
  | none => (st, none)
  | some node =>
    match add_module node cfg with
    | none => (st, none)
    | some (node2, m) =>
      let st1 := { st with nodes := alSet st.nodes nid node2 }
      let st2 := changed st1
      let st3 := register_box st2 m.src_key BOXNAME_MODULE (BoxOwner.moduleB m.nid m.id)
      (st3, some m)

/-- register_actor: a none actor (failed construction) passes through with no
change; otherwise the actor is stored, its source key resolved, the actor
indexed under its handler key, its box (if any) indexed under the resolved
source key, and the revision bumped. -/
def register_actor (fuel : Nat) (st : Inv) (a0 : Option RActor) : Inv × Option RActor :=
  match a0 with
  | none => (st, none)
  | some a =>
    let st1 := { st with actors := alSet st.actors a.id a }
    let r := set_src_key fuel st1 a.id
    let st2 := register_handler r.1 a
    let st3 :=
      match a.box_name with
      | some name => register_box st2 r.2 name (BoxOwner.actorB a.id)
      | none => st2
    (changed st3, some a)

/-- Private helper __wipe_boxes_by_key: `del boxes[key]`, failing with
KeyError when the key is absent. -/
def wipe_boxes_by_key (st : Inv) (key : String) : Option Inv :=
  if (alGet st.boxes key).isSome then
    some { st with boxes := alDel st.boxes key }
  else
    none

/-- wipe_module: looks the alias up on the node, removes it, drops the whole
box bucket of the module source key and bumps the revision.  Any KeyError is
swallowed and reported as false; a KeyError raised after the module map
removal (missing box bucket) leaves the partial mutation in place, exactly as
the Python try/except does. -/
def wipe_module (st : Inv) (nid : String) (mal : String) : Inv × Bool :=
  match alGet st.nodes nid with
  | none => (st, false)
  | some node =>
    match alGet node.modules mal with
    | none => (st, false)
    | some m =>
      let node2 := { node with modules := alDel node.modules mal }
      let st1 := { st with nodes := alSet st.nodes nid node2 }
      match wipe_boxes_by_key st1 m.src_key with
      | some st2 => (changed st2, true)
      | none => (st1, false)

/-- Private helper __wipe_box: `del boxes[owner.src_key][name]` with a
KeyError when the bucket or the name is absent (the bucket itself stays,
possibly empty). -/
def wipe_box (st : Inv) (key : String) (name : String) : Option Inv :=
  match alGet st.boxes key with
  | none => none
  | some bucket =>
    if (alGet bucket name).isSome then
      some { st with boxes := alSet st.boxes key (alDel bucket name) }
    else
      none

/-- Private helper __wipe_handler: `handlers[handler_key].remove(handler)`;
KeyError when the handler key has no bucket, ValueError when the bucket does
not contain the actor. -/
def wipe_handler (st : Inv) (a : RActor) : Inv ⊕ PyErr :=
  match a.kind with
  | AKind.generatorK => Sum.inl st
  | AKind.handlerK src src_mdl =>
    let key := get_handler_key src src_mdl
    match alGet st.handlers key with
    | none => Sum.inr PyErr.keyError
    | some bucket =>
      if a.id ∈ bucket then
        Sum.inl { st with handlers := alSet st.handlers key (bucket.erase a.id) }
      else
        Sum.inr PyErr.valueError

/-- wipe_actor: removes the actor box entry, the handler index entry and the
actor map entry, then bumps the revision.  The result carries the state
reached together with the exception, if one was raised; on an exception the
mutations made before it persist and the revision is not bumped. -/
def wipe_actor (st : Inv) (aid : String) : Inv × Option PyErr :=
  match alGet st.actors aid with
  | none => (st, some PyErr.keyError)
  | some a =>
    let step1 : Inv ⊕ PyErr :=
      match a.box_name with
      | some name =>
        match wipe_box st a.src_key name with
        | some st1 => Sum.inl st1
        | none => Sum.inr PyErr.keyError
      | none => Sum.inl st
    match step1 with
    | Sum.inr e => (st, some e)
    | Sum.inl st1 =>
      match wipe_handler st1 a with
      | Sum.inr e => (st1, some e)
      | Sum.inl st2 =>
        (changed { st2 with actors := alDel st2.actors a.id }, none)

/-! ### Deferred resolution pass (inventory.py load_actors_stop) -/

/-- First loop of load_actors_stop: walk the actor map in insertion order;
for each actor still on the placeholder key retry set_src_key; collect the
still-unresolved ids, and re-index the box of a now-resolved actor under its
new key.  Returns the state and the ids to remove, in collection order. -/
def resolve_pass (fuel : Nat) : List String → Inv → Inv × List String
  | [], st => (st, [])
  | aid :: rest, st =>
    match alGet st.actors aid with
    | none => resolve_pass fuel rest st
    | some a =>
      if a.src_key = SRCKEY_NOSRC then
        let r := set_src_key fuel st aid
        if r.2 = SRCKEY_NOSRC then
          let tail := resolve_pass fuel rest r.1
          (tail.1, aid :: tail.2)
        else
          let st2 :=
            match a.box_name with
            | some name => register_box r.1 r.2 name (BoxOwner.actorB aid)
            | none => r.1
          resolve_pass fuel rest st2
      else
        resolve_pass fuel rest st

/-- Second loop of load_actors_stop: wipe the collected actors one by one,
aborting at the first exception (which the surrounding try/except receives). -/
def wipe_all : List String → Inv → Inv × Option PyErr
  | [], st => (st, none)
  | aid :: rest, st =>
    match wipe_actor st aid with
    | (st1, none) => wipe_all rest st1
    | (st1, some e) => (st1, some e)

/-- Outcome of load_actors_stop observed by the embedding: `clean` when both
loops completed (the trailing `del boxes[SRCKEY_NOSRC]` KeyError is the benign
no-postponed-boxes case the except clause is written for), `abortedKey` when a
KeyError cut the cleanup loop short, `abortedValue` when a ValueError escaped
(list.remove is not covered by the except clause). -/
inductive LoadOutcome where
  | clean
  | abortedKey
  | abortedValue
  deriving Repr, DecidableEq

/-- load_actors_stop: re-resolve every placeholder-keyed actor, wipe the
still-unresolved ones, then drop the placeholder box bucket; KeyError
anywhere ends the function early with all mutations made so far kept. -/
def load_actors_stop (fuel : Nat) (st : Inv) : Inv × LoadOutcome :=
  let r1 := resolve_pass fuel (alKeys st.actors) st
  match wipe_all r1.2 r1.1 with
  | (st2, none) =>
    match wipe_boxes_by_key st2 SRCKEY_NOSRC with
    | some st3 => (st3, LoadOutcome.clean)
    | none => (st2, LoadOutcome.clean)
  | (st2, some PyErr.keyError) => (st2, LoadOutcome.abortedKey)
  | (st2, some PyErr.valueError) => (st2, LoadOutcome.abortedValue)

/-! ### Signal dispatcher (inventory.py handle_value)

The dispatcher walks the handler index and calls the process_signal method
of each active actor.  The embedding abstracts an actor's process_signal by
its observable interface to the dispatcher: the event of being invoked
(recorded in a trace), an optional write to the actor's own box (the way
Average stores its smoothed result), and whether the call raises.  Box
values live in a world map from actor id to value, mirroring the shared
mutable Box objects.  A fuel parameter bounds the recursion: the source has
no cycle guard, and a configuration cycle recurses forever, which the
embedding maps to a cut-off at fuel 0. -/

/-- Dispatcher view of an actor: identity, active flag, box ownership, the
box-writing effect of its process_signal, and whether process_signal raises. -/
structure DActor where
  id : String
  active : Bool
  has_box : Bool
  proc_write : Option (PyVal → PyVal)
  proc_raises : Bool

/-- Box values by owning actor id (the mutable Box.value cells). -/
def DWorld : Type := List (String × PyVal)

/-- Handler index snapshot: handler key to actors in registration order. -/
def DHandlers : Type := List (String × List DActor)

/-- Observable events of a dispatch: an actor's process_signal invocation, and
a recursive handle_value call on an actor id with a box value. -/
inductive Event where
  | procSignal (aid : String) (v : PyVal)
  | recurse (key : String) (v : PyVal)
  deriving Repr, DecidableEq

/-- Current value of an actor box (Box.value starts as the empty string). -/
def box_value (w : DWorld) (aid : String) : PyVal :=
  (alGet w aid).getD (PyVal.str "")

/-- Effect of process_signal on the owning actor box. -/
def proc_effect (w : DWorld) (a : DActor) (v : PyVal) : DWorld :=
  match a.proc_write with
  | some f => if a.has_box then alSet w a.id (f v) else w
  | none => w

/-- Loop body of handle_value over the actor list of one handler key,
parameterized by the recursive dispatch entry (applied at one lower fuel):
trigger process_signal when active, then recurse on the actor id and its
current box value when the actor owns a box, then continue with the
remaining actors. -/
def acts_go (rec : String → PyVal → DWorld → DWorld × List Event) :
    List DActor → PyVal → DWorld → DWorld × List Event
  | [], _, w => (w, [])
  | a :: rest, v, w =>
    let w1 := if a.active then proc_effect w a v else w
    let tr1 : List Event := if a.active then [Event.procSignal a.id v] else []
    if a.has_box then
      let bv := box_value w1 a.id
      let inner := rec a.id bv w1
      let tail := acts_go rec rest v inner.1
      (tail.1, tr1 ++ Event.recurse a.id bv :: (inner.2 ++ tail.2))
    else
      let tail := acts_go rec rest v w1
      (tail.1, tr1 ++ tail.2)

/-- handle_value: a key with no handler bucket is a no-op; otherwise the
bucket is processed in registration order, the whole chain completing before
the call returns.  The fuel bounds the recursion depth. -/
def handle_value (hs : DHandlers) : Nat → String → PyVal → DWorld → DWorld × List Event
  | 0, _, _, w => (w, [])
  | Nat.succ fuel, key, v, w =>
    match alGet hs key with
    | none => (w, [])
    | some acts => acts_go (fun k v2 w2 => handle_value hs fuel k v2 w2) acts v w

/-- Dispatcher loop at one handler key at the given recursion depth. -/
def handle_acts (hs : DHandlers) (fuel : Nat) : List DActor → PyVal → DWorld → DWorld × List Event :=
  acts_go (fun k v2 w2 => handle_value hs fuel k v2 w2)

/-- Dispatch contract written from the spec wording: look up all actors
indexed under the key (a missing key is a no-op); for each, if active, invoke
its signal-processing behaviour with the value; after processing, if the
actor owns a Box, recursively call handleValue(actor.id, box.value). -/
def dispatch_contract (hs : DHandlers) : Nat → String → PyVal → DWorld → DWorld × List Event
  | 0, _, _, w => (w, [])
  | Nat.succ fuel, key, v, w =>
    match alGet hs key with
    | none => (w, [])
    | some acts =>
      acts.foldl
        (fun acc a =>
          let p := if a.active then (proc_effect acc.1 a v, acc.2 ++ [Event.procSignal a.id v])
                   else acc
          if a.has_box then
            let bv := box_value p.1 a.id
            let r := dispatch_contract hs fuel a.id bv p.1
            (r.1, p.2 ++ Event.recurse a.id bv :: r.2)
          else p)
        (w, [])

/-- Per-actor step of the dispatch contract fold (identical to the inline
fold body of dispatch_contract, named for the refinement proof). -/
def dc_step (hs : DHandlers) (fuel : Nat) (v : PyVal) (acc : DWorld × List Event)
    (a : DActor) : DWorld × List Event :=
  let p := if a.active then (proc_effect acc.1 a v, acc.2 ++ [Event.procSignal a.id v])
           else acc
  if a.has_box then
    let bv := box_value p.1 a.id
    let r := dispatch_contract hs fuel a.id bv p.1
    (r.1, p.2 ++ Event.recurse a.id bv :: r.2)
  else p

/-- Result of an exception-aware dispatch: final world, event trace, and
whether an exception escaped. -/
structure DRes where
  w : DWorld
  tr : List Event
  exn : Bool

/-- Loop body of handle_value with Python exception semantics, parameterized
by the recursive dispatch entry: handle_value has no try/except, so an
exception raised by process_signal (or anywhere inside a recursive chain)
aborts the loop at once and propagates to the caller. -/
def acts_go_e (rec : String → PyVal → DWorld → DRes) :
    List DActor → PyVal → DWorld → DRes
  | [], _, w => ⟨w, [], false⟩
  | a :: rest, v, w =>
    if a.active ∧ a.proc_raises then
      ⟨w, [Event.procSignal a.id v], true⟩
    else
      let w1 := if a.active then proc_effect w a v else w
      let tr1 : List Event := if a.active then [Event.procSignal a.id v] else []
      if a.has_box then
        let bv := box_value w1 a.id
        let inner := rec a.id bv w1
        if inner.exn then
          ⟨inner.w, tr1 ++ Event.recurse a.id bv :: inner.tr, true⟩
        else
          let tail := acts_go_e rec rest v inner.w
          ⟨tail.w, tr1 ++ Event.recurse a.id bv :: (inner.tr ++ tail.tr), tail.exn⟩
      else
        let tail := acts_go_e rec rest v w1
        ⟨tail.w, tr1 ++ tail.tr, tail.exn⟩

/-- handle_value with Python exception semantics. -/
def handle_value_e (hs : DHandlers) : Nat → String → PyVal → DWorld → DRes
  | 0, _, _, w => ⟨w, [], false⟩
  | Nat.succ fuel, key, v, w =>
    match alGet hs key with
    | none => ⟨w, [], false⟩
    | some acts => acts_go_e (fun k v2 w2 => handle_value_e hs fuel k v2 w2) acts v w

/-- Exception-aware dispatcher loop at one handler key at the given depth. -/
def handle_acts_e (hs : DHandlers) (fuel : Nat) : List DActor → PyVal → DWorld → DRes :=
  acts_go_e (fun k v2 w2 => handle_value_e hs fuel k v2 w2)

/-! ### Decimal digits (Python int() and the %02d / %s format specifiers) -/

/-- Numeric value of a decimal digit character. -/
def digitVal (c : Char) : Nat := c.toNat - '0'.toNat

/-- Value of a decimal digit string (left-to-right accumulation). -/
def digitsToNat (cs : List Char) : Nat := cs.foldl (fun a c => a * 10 + digitVal c) 0

/-- Decimal digit characters, fuel-bounded helper (any fuel above the number
itself is adequate, since dividing by ten strictly shrinks). -/
def ntdGo : Nat → Nat → List Char
  | 0, _ => []
  | Nat.succ fuel, n =>
    if n < 10 then [Nat.digitChar n]
    else ntdGo fuel (n / 10) ++ [Nat.digitChar (n % 10)]

/-- Decimal digit characters of a natural number, most significant first. -/
def natToDigits (n : Nat) : List Char := ntdGo (n + 1) n

/-- Python int() on a string restricted to the character data reachable here:
an optional minus sign followed by decimal digits; everything else is a
ValueError, which the JobTime parser turns into the wildcard -1 (note that a
parsed literal "-1" and a ValueError produce the same -1, exactly as in the
source). -/
def pyInt (cs : List Char) : Int :=
  match cs with
  | '-' :: rest =>
    if rest ≠ [] ∧ rest.all Char.isDigit then -(digitsToNat rest : Int) else -1
  | _ =>
    if cs ≠ [] ∧ cs.all Char.isDigit then (digitsToNat cs : Int) else -1

/-- Python str.rfind(c, 0, stop): greatest index below stop holding c, else -1. -/
def pyRFind (cs : List Char) (c : Char) : Nat → Int
  | 0 => -1
  | Nat.succ k => if cs.get? k = some c then (k : Int) else pyRFind cs c k

/-- Python slice s[lo:hi] for the non-negative bounds used by the parser. -/
def pySlice (cs : List Char) (lo hi : Int) : List Char :=
  (cs.take hi.toNat).drop lo.toNat

/-- Parser.get of JobTime.__init__: from the current end position, find the
previous delimiter, parse the segment after it (ValueError becomes -1) and
move the end position onto the delimiter; a negative end position means the
input is exhausted and every further get returns -1. -/
def pget (cs : List Char) (c : Char) (posEnd : Int) : Int × Int :=
  if 0 ≤ posEnd then
    let pos := pyRFind cs c posEnd.toNat
    (pyInt (pySlice cs (pos + 1) posEnd), pos)
  else
    (-1, posEnd)

/-- Time template of scheduler.py: six fields with -1 as the wildcard. -/
structure JobTime where
  year : Int
  month : Int
  day : Int
  hour : Int
  minute : Int
  second : Int
  is_template : Bool
  deriving Repr, DecidableEq

/-- JobTime.__init__ on a string: append ".0" when no dot is present, then
tokenize right to left (second, minute, hour, day, month, year); the template
flag records that the year stayed wildcard. -/
def job_time_of_chars (cs0 : List Char) : JobTime :=
  let cs := if cs0.contains '.' then cs0 else cs0 ++ ['.', '0']
  let g1 := pget cs '.' (cs.length : Int)
  let g2 := pget cs ':' g1.2
  let g3 := pget cs ':' g2.2
  let g4 := pget cs ':' g3.2
  let g5 := pget cs ':' g4.2
  let g6 := pget cs ':' g5.2
  { year := g6.1, month := g5.1, day := g4.1, hour := g3.1,
    minute := g2.1, second := g1.1, is_template := g6.1 == -1 }

/-- JobTime.__init__ on a string, String wrapper. -/
def job_time_parse (s : String) : JobTime := job_time_of_chars s.data

/-- Python format specifier %02d: zero-padded to width two (a negative value
keeps its sign and is not padded further, e.g. -1 prints as itself). -/
def pad2 (n : Int) : List Char :=
  if n < 0 then '-' :: natToDigits (-n).toNat
  else if n < 10 then '0' :: natToDigits n.toNat
  else natToDigits n.toNat

/-- Python str() of an integer. -/
def int_to_chars (n : Int) : List Char :=
  if n < 0 then '-' :: natToDigits (-n).toNat else natToDigits n.toNat

/-- JobTime.__str__: wildcard year prints four stars, other wildcard fields
two stars, concrete fields zero-padded; the second is always printed. -/
def job_time_to_chars (t : JobTime) : List Char :=
  (if t.year > -1 then int_to_chars t.year else ['*', '*', '*', '*']) ++ [':'] ++
  (if t.month > -1 then pad2 t.month else ['*', '*']) ++ [':'] ++
  (if t.day > -1 then pad2 t.day else ['*', '*']) ++ [':'] ++
  (if t.hour > -1 then pad2 t.hour else ['*', '*']) ++ [':'] ++
  (if t.minute > -1 then pad2 t.minute else ['*', '*']) ++ ['.'] ++
  pad2 t.second

/-- Grammar [[[[YYYY:]MM:]DD:]hh:]mm[.ss] of the JobTime docstring, rendered
from optional field values: each present field is a fixed-width digit group,
presence is nested outside-in, minutes are mandatory. -/
def padL (w : Nat) (n : Nat) : List Char :=
  List.replicate (w - (natToDigits n).length) '0' ++ natToDigits n

/-- Concrete string of a grammar instance. -/
def render_grammar (yr mo dy hr : Option Nat) (mi : Nat) (se : Option Nat) : List Char :=
  (match yr with | some y => padL 4 y ++ [':'] | none => []) ++
  (match mo with | some x => padL 2 x ++ [':'] | none => []) ++
  (match dy with | some x => padL 2 x ++ [':'] | none => []) ++
  (match hr with | some x => padL 2 x ++ [':'] | none => []) ++
  padL 2 mi ++
  (match se with | some x => '.' :: padL 2 x | none => [])

/-- Membership in the JobTime time-string grammar: the string is the render
of nested optional fields within the digit-width ranges of the grammar. -/
def matches_grammar (cs : List Char) : Prop :=
  ∃ yr mo dy hr : Option Nat, ∃ mi : Nat, ∃ se : Option Nat,
    (yr.isSome → mo.isSome) ∧ (mo.isSome → dy.isSome) ∧ (dy.isSome → hr.isSome) ∧
    (∀ y ∈ yr, y ≤ 9999) ∧ (∀ x ∈ mo, x ≤ 99) ∧ (∀ x ∈ dy, x ≤ 99) ∧
    (∀ x ∈ hr, x ≤ 99) ∧ mi ≤ 99 ∧ (∀ x ∈ se, x ≤ 99) ∧
    cs = render_grammar yr mo dy hr mi se

/-! ### Calendar arithmetic (Python datetime)

A Python datetime value is modelled by its instant: the count of seconds
since the epoch (an Int).  Field access goes through the standard civil
calendar conversion, construction validates the ranges that
datetime.datetime() enforces (raising ValueError becomes none), addition of
a timedelta is addition of its total seconds, and comparison of two
datetimes is comparison of instants (Python compares the field tuples
lexicographically, which orders valid datetimes identically). -/

/-- Leap year predicate of the Gregorian calendar. -/
def is_leap (y : Int) : Bool :=
  Int.emod y 4 = 0 ∧ (Int.emod y 100 ≠ 0 ∨ Int.emod y 400 = 0)

/-- Length of a month. -/
def days_in_month (y m : Int) : Int :=
  if m = 2 then (if is_leap y then 29 else 28)
  else if m = 4 ∨ m = 6 ∨ m = 9 ∨ m = 11 then 30
  else 31

/-- Days from civil date to the 1970-01-01 epoch (standard era/year-of-era
conversion, floor divisions throughout). -/
def days_from_civil (y m d : Int) : Int :=
  let y2 := y - (if m ≤ 2 then 1 else 0)
  let era := Int.ediv y2 400
  let yoe := y2 - era * 400
  let mp := Int.emod (m + 9) 12
  let doy := Int.ediv (153 * mp + 2) 5 + d - 1
  let doe := yoe * 365 + Int.ediv yoe 4 - Int.ediv yoe 100 + doy
  era * 146097 + doe - 719468

/-- Civil date (year, month, day) of a day count since the 1970-01-01 epoch. -/
def civil_from_days (z0 : Int) : Int × Int × Int :=
  let z := z0 + 719468
  let era := Int.ediv z 146097
  let doe := z - era * 146097
  let yoe := Int.ediv (doe - Int.ediv doe 1460 + Int.ediv doe 36524 - Int.ediv doe 146096) 365
  let y := yoe + era * 400
  let doy := doe - (365 * yoe + Int.ediv yoe 4 - Int.ediv yoe 100)
  let mp := Int.ediv (5 * doy + 2) 153
  let d := doy - Int.ediv (153 * mp + 2) 5 + 1
  let m := mp + (if mp < 10 then 3 else -9)
  (y + (if m ≤ 2 then 1 else 0), m, d)

/-- Year field of an instant. -/
def inst_year (t : Int) : Int := (civil_from_days (Int.ediv t 86400)).1

/-- Month field of an instant. -/
def inst_month (t : Int) : Int := (civil_from_days (Int.ediv t 86400)).2.1

/-- Day field of an instant. -/
def inst_day (t : Int) : Int := (civil_from_days (Int.ediv t 86400)).2.2

/-- Hour field of an instant. -/
def inst_hour (t : Int) : Int := Int.ediv (Int.emod t 86400) 3600

/-- Minute field of an instant. -/
def inst_minute (t : Int) : Int := Int.emod (Int.ediv (Int.emod t 86400) 60) 60

/-- Second field of an instant. -/
def inst_second (t : Int) : Int := Int.emod (Int.emod t 86400) 60

/-- Python datetime.datetime(y, mo, d, h, mi, s): range validation then the
instant; none models the ValueError on an out-of-range field. -/
def datetime_mk (y mo d h mi s : Int) : Option Int :=
  if 1 ≤ y ∧ y ≤ 9999 ∧ 1 ≤ mo ∧ mo ≤ 12 ∧ 1 ≤ d ∧ d ≤ days_in_month y mo ∧
     0 ≤ h ∧ h ≤ 23 ∧ 0 ≤ mi ∧ mi ≤ 59 ∧ 0 ≤ s ∧ s ≤ 59 then
    some (days_from_civil y mo d * 86400 + h * 3600 + mi * 60 + s)
  else none

/-- JobTime.__init__ on a datetime: replicate its six fields (the source also
sets the template flag on this branch). -/
def job_time_of_instant (t : Int) : JobTime :=
  { year := inst_year t, month := inst_month t, day := inst_day t,
    hour := inst_hour t, minute := inst_minute t, second := inst_second t,
    is_template := true }

/-- JobTime._nvl. -/
def nvl (value null_value : Int) : Int :=
  if value > -1 then value else null_value

/-- Field comparison of JobTime._cmp: a wildcard on either side compares equal. -/
def cmp_field (x1 x2 : Int) : Int :=
  if x1 ≠ -1 ∧ x2 ≠ -1 then (if x1 > x2 then 1 else if x1 < x2 then -1 else 0) else 0

/-- JobTime._cmp: field-by-field comparison, most significant first. -/
def jt_cmp (a b : JobTime) : Int :=
  let r1 := cmp_field a.year b.year
  if r1 ≠ 0 then r1 else
  let r2 := cmp_field a.month b.month
  if r2 ≠ 0 then r2 else
  let r3 := cmp_field a.day b.day
  if r3 ≠ 0 then r3 else
  let r4 := cmp_field a.hour b.hour
  if r4 ≠ 0 then r4 else
  let r5 := cmp_field a.minute b.minute
  if r5 ≠ 0 then r5 else
  cmp_field a.second b.second

/-- JobTime.__lt__. -/
def jt_lt (a b : JobTime) : Bool := jt_cmp a b = -1

/-- JobTime.__gt__. -/
def jt_gt (a b : JobTime) : Bool := jt_cmp a b = 1

/-- Shift amounts of JobTime.get_datetime: the shift lands on the field one
level above the most significant concrete field, provided the whole prefix is
wildcard (with an all-wildcard template shifting minutes, and a
second-only template receiving no shift at all). -/
structure ShiftF where
  y : Int
  mo : Int
  d : Int
  h : Int
  mi : Int
  deriving Repr, DecidableEq

/-- Shift-field selection block of JobTime.get_datetime. -/
def shift_fields (t : JobTime) (shift : Int) : ShiftF :=
  if t.year = -1 then
    if t.month = -1 then
      if t.day = -1 then
        if t.hour = -1 then
          if t.minute = -1 then
            if t.second = -1 then ⟨0, 0, 0, 0, shift⟩ else ⟨0, 0, 0, 0, 0⟩
          else ⟨0, 0, 0, shift, 0⟩
        else ⟨0, 0, shift, 0, 0⟩
      else ⟨0, shift, 0, 0, 0⟩
    else ⟨shift, 0, 0, 0, 0⟩
  else ⟨0, 0, 0, 0, 0⟩

/-- JobTime.get_datetime: materialize a concrete datetime by filling
wildcards from the base (Python defaults the base to now); a nonzero shift
first moves the base along the selected shift field, carrying an overflowing
month into the year. -/
def get_datetime (t : JobTime) (shift : Int) (base : Int) : Option Int :=
  if shift = 0 then
    datetime_mk (nvl t.year (inst_year base)) (nvl t.month (inst_month base))
      (nvl t.day (inst_day base)) (nvl t.hour (inst_hour base))
      (nvl t.minute (inst_minute base)) t.second
  else
    let sf := shift_fields t shift
    let ds := base + sf.d * 86400 + sf.mi * 60 + sf.h * 3600
    let adj : Int × Int :=
      if inst_month ds + sf.mo > 12 then (sf.y + 1, sf.mo - 12) else (sf.y, sf.mo)
    datetime_mk (nvl t.year (inst_year ds + adj.1)) (nvl t.month (inst_month ds + adj.2))
      (nvl t.day (inst_day ds)) (nvl t.hour (inst_hour ds))
      (nvl t.minute (inst_minute ds)) t.second

/-- JobTime.get_timedelta: total seconds of the concrete fields read as a
duration (day, hour, minute, second; wildcards count zero). -/
def get_timedelta (t : JobTime) : Int :=
  nvl t.day 0 * 86400 + nvl t.second 0 + nvl t.minute 0 * 60 + nvl t.hour 0 * 3600

/-! ### Scheduler timetable (scheduler.py add_job / IntervalEventJob) -/

/-- Jobs held by the timetable: one-shot EventJobs and the self-rescheduling
IntervalEventJob (carrying its raw configuration and its start time, unset
until schedule() assigns the interval close). -/
inductive SJob where
  | eventJob (handler : String) (value : PyVal) (start_time : JobTime)
  | intervalJob (handler : String) (start stop period : String) (value : PyVal)
      (start_time : Option JobTime)
  deriving Repr, DecidableEq

/-- Start time of a job, if assigned. -/
def job_start_time : SJob → Option JobTime
  | SJob.eventJob _ _ st => some st
  | SJob.intervalJob _ _ _ _ _ st => st

/-- Timetable: time-cell string to the jobs due at that cell. -/
def Timetable : Type := List (String × List SJob)

/-- Time-cell key of add_job: concatenation of the non-wildcard fields, most
significant first, colon separated (built by prepending from the minute). -/
def time_cell_of (t : JobTime) : String :=
  let c1 := if t.minute > -1 then String.mk (pad2 t.minute) else ""
  let c2 := if t.hour > -1 then String.mk (pad2 t.hour) ++ ":" ++ c1 else c1
  let c3 := if t.day > -1 then String.mk (pad2 t.day) ++ ":" ++ c2 else c2
  let c4 := if t.month > -1 then String.mk (pad2 t.month) ++ ":" ++ c3 else c3
  if t.year > -1 then String.mk (int_to_chars t.year) ++ ":" ++ c4 else c4

/-- add_job: register the job in the timetable under its time-cell key. -/
def add_job (tt : Timetable) (j : SJob) : Timetable :=
  match job_start_time j with
  | none => tt
  | some t =>
    let cell := time_cell_of t
    match alGet tt cell with
    | some bucket => alSet tt cell (bucket ++ [j])
    | none => alSet tt cell [j]

/-- Interval job configuration: the start / stop / period templates and the
value re-injected at each event. -/
structure IntervalCfg where
  start : String
  stop : String
  period : String
  value : PyVal
  deriving Repr, DecidableEq

/-- While loop of IntervalEventJob.schedule lifted to instants, fuel-bounded
helper: with a positive step, a fuel of (e + 1 - s).toNat is adequate, and
at fuel 0 the adequacy bound forces the loop condition false, so stopping
agrees with the source loop. -/
def etGo (δ e : Int) : Nat → Int → List Int
  | 0, _ => []
  | Nat.succ fuel, s => if s ≤ e then s :: etGo δ e fuel (s + δ) else []

/-- While loop of IntervalEventJob.schedule lifted to instants: all instants
from s in steps of the period delta while not past e; the positivity of the
delta is what makes the source while loop terminate. -/
def enum_times (δ : Int) (_hδ : 0 < δ) (e : Int) (s : Int) : List Int :=
  etGo δ e (e + 1 - s).toNat s

/-- Start and stop instants computed by IntervalEventJob.schedule: the start
template materialized with a one-step shift when the stop template is not
later than now, then the stop template materialized against the start with a
one-step shift when it compares less than the start. -/
def interval_start_stop (cfg : IntervalCfg) (now : Int) : Option (Int × Int) :=
  let start_template := job_time_parse cfg.start
  let stop_template := job_time_parse cfg.stop
  let s1 : Int := if jt_gt stop_template (job_time_of_instant now) then 0 else 1
  match get_datetime start_template s1 now with
  | none => none
  | some start_time =>
    let s2 : Int := if jt_lt stop_template (job_time_of_instant start_time) then 1 else 0
    match get_datetime stop_template s2 start_time with
    | none => none
    | some stop_time => some (start_time, stop_time)

/-- IntervalEventJob.schedule: enumerate EventJobs at every period increment
from the start instant through the stop instant inclusive, then re-register
the interval job itself at the stop instant.  The positivity hypothesis on
the period delta reflects the nonzero period duration required for the
source while loop to terminate; a failing datetime constructor (ValueError)
yields none. -/
def interval_schedule (handler : String) (cfg : IntervalCfg) (now : Int) (tt : Timetable)
    (hδ : 0 < get_timedelta (job_time_parse cfg.period)) : Option Timetable :=
  match interval_start_stop cfg now with
  | none => none
  | some se =>
    let δ := get_timedelta (job_time_parse cfg.period)
    let times := enum_times δ hδ se.2 se.1
    let tt1 := times.foldl
      (fun acc t => add_job acc (SJob.eventJob handler cfg.value (job_time_of_instant t))) tt
    some (add_job tt1
      (SJob.intervalJob handler cfg.start cfg.stop cfg.period cfg.value
        (some (job_time_of_instant se.2))))

/-- Interval scheduling written from the spec wording (with the stop shift
read as one unit of the least specific wildcard field, the same mechanism as
the start shift): EventJobs are filed at start plus every multiple of the
period that does not pass the stop instant, inclusive, in order, and the
IntervalEventJob itself is finally filed at the stop instant. -/
def interval_schedule_spec (handler : String) (cfg : IntervalCfg) (now : Int) (tt : Timetable)
    (_hδ : 0 < get_timedelta (job_time_parse cfg.period)) : Option Timetable :=
  match interval_start_stop cfg now with
  | none => none
  | some se =>
    let δ := get_timedelta (job_time_parse cfg.period)
    let n : Nat := if se.1 ≤ se.2 then (Int.ediv (se.2 - se.1) δ).toNat + 1 else 0
    let times := (List.range n).map (fun k : Nat => se.1 + (k : Int) * δ)
    let tt1 := times.foldl
      (fun acc t => add_job acc (SJob.eventJob handler cfg.value (job_time_of_instant t))) tt
    some (add_job tt1
      (SJob.intervalJob handler cfg.start cfg.stop cfg.period cfg.value
        (some (job_time_of_instant se.2))))

/-! ### Concrete instances used by witnesses and counterexamples -/

/-- Registry with one node `n` carrying one module `m`. -/
def c1w_st : Inv :=
  (register_module (register_node inv_init ⟨"n"⟩).1 "n" ⟨"m"⟩).1

/-- Registry exhibiting a source-key collision: node `a` with module alias
`b/c` and node `a/b` with module alias `c` share the source key `a/b/c`;
wiping the first module has already dropped the shared box bucket. -/
def c1ce_st : Inv :=
  (wipe_module
    (register_module
      (register_module
        (register_node (register_node inv_init ⟨"a"⟩).1 ⟨"a/b"⟩).1
        "a" ⟨"b/c"⟩).1
      "a/b" ⟨"c"⟩).1
    "a" "b/c").1

/-- Registry with one node `n` carrying one module `m` (duplicate-alias test). -/
def c9w_st : Inv :=
  (register_module (register_node inv_init ⟨"n"⟩).1 "n" ⟨"m"⟩).1

/-- Handler configuration whose source actor id `zz` never materializes and
whose box is named `b`. -/
def c4ce_cfg : ActorCfg :=
  ⟨"average", ⟨some "zz", none, some "b", none, none⟩⟩

/-- Registry with two unresolved actors sharing the box name `b`: the state
on which the deferred-resolution cleanup aborts half way. -/
def c4ce_st : Inv :=
  (register_actor 5 (register_actor 5 inv_init (handler_new c4ce_cfg "1")).1
    (handler_new c4ce_cfg "2")).1

/-- Handler configuration rooted at module `m1` of node `n1`. -/
def c4w_cfgA : ActorCfg :=
  ⟨"average", ⟨some "n1", some "m1", some "ba", none, none⟩⟩

/-- Handler configuration naming actor `A` as its source. -/
def c4w_cfgB : ActorCfg :=
  ⟨"logdb", ⟨some "A", none, some "bb", none, none⟩⟩

/-- Registry where actor `B` was registered before its source actor `A`:
`B` sits on the placeholder key, `A` resolved to `n1/m1`. -/
def c4w_st : Inv :=
  (register_actor 5 (register_actor 5 inv_init (handler_new c4w_cfgB "B")).1
    (handler_new c4w_cfgA "A")).1

/-- Registry with a single dangling actor `D` whose declared source `gone`
never materializes. -/
def c4w3_st : Inv :=
  (register_actor 5 inv_init (handler_new ⟨"x", ⟨some "gone", none, some "bx", none, none⟩⟩ "D")).1

/-- The actor record built by handler_new for configuration c4w_cfgB under
database id `B`. -/
def c4w_raB : RActor :=
  { id := "B", kind := AKind.handlerK "A" none, box_name := some "bb",
    active := true, src_key := "" }

/-- Actor `B` as stored in c4w_st: the placeholder source key was assigned at
registration because `A` did not exist yet. -/
def c4w_bB : RActor :=
  { id := "B", kind := AKind.handlerK "A" none, box_name := some "bb",
    active := true, src_key := SRCKEY_NOSRC }

/-- Actor `A` as stored in c4w_st: its module source resolved immediately. -/
def c4w_aA : RActor :=
  { id := "A", kind := AKind.handlerK "n1" (some "m1"), box_name := some "ba",
    active := true, src_key := "n1/m1" }

/-- The dangling actor `D` as stored in c4w3_st. -/
def c4w3_dD : RActor :=
  { id := "D", kind := AKind.handlerK "gone" none, box_name := some "bx",
    active := true, src_key := SRCKEY_NOSRC }

/-- Dispatcher actor whose process_signal raises. -/
def c3ce_raiser : DActor := ⟨"r", true, false, none, true⟩

/-- Dispatcher actor registered after the raising one under the same key. -/
def c3ce_sibling : DActor := ⟨"n", true, false, none, false⟩

/-- Handler index with a raising actor followed by a sibling. -/
def c3ce_hs : DHandlers := [("k", [c3ce_raiser, c3ce_sibling])]

/-- Inactive box-owning dispatcher actor. -/
def c10w_a : DActor := ⟨"a", false, true, none, false⟩

/-- Interval configuration from minute 50 to minute 5 every 30 seconds. -/
def c6ce_cfg : IntervalCfg := ⟨"50", "5", "0.30", PyVal.str "v"⟩

/-- Instant 2024-03-15 10:20:00. -/
def c6ce_now : Int := days_from_civil 2024 3 15 * 86400 + 10 * 3600 + 20 * 60

/-! ## Theorems -/

/-- C5: a Session.start call on a Node returns the value passed to stop when
stop is invoked before the timeout fires; if instead the timeout fires, start
returns the fixed negative-acknowledgement payload TIMEOUT_RESPONSE and the
Node's is_alive flag is false afterward. -/
theorem c5_session_outcomes (st : SessionSt) (m r : PyVal) :
    session_return (session_stop (session_start_begin st m) r) = some r ∧
    session_return (session_timeout (session_start_begin st m)) = some TIMEOUT_RESPONSE ∧
    (session_timeout (session_start_begin st m)).node_alive = false := by
  refine ⟨rfl, ?_, ?_⟩ <;>
    simp [session_timeout, session_start_begin, session_stop, session_return]

/-- C8: constructing a Handler actor without the `src` configuration field
yields no object; likewise an Average actor without `box`, or a LogThingSpeak
actor without `key`, yields none. -/
theorem c8_missing_field_construction (cfg : ActorCfg) (db_id : String) :
    (cfg.data.src = none → handler_new cfg db_id = none) ∧
    (cfg.data.box = none → average_new cfg db_id = none) ∧
    (cfg.data.key = none → log_thing_speak_new cfg db_id = none) := by
  refine ⟨fun h => ?_, fun h => ?_, fun h => ?_⟩ <;>
    simp [handler_new, average_new, log_thing_speak_new, h]

/-- Witness for C8 at a configuration with no optional fields at all. -/
theorem c8_missing_field_construction_witness :
    handler_new ⟨"x", ⟨none, none, none, none, none⟩⟩ "7" = none ∧
    average_new ⟨"x", ⟨none, none, none, none, none⟩⟩ "7" = none ∧
    log_thing_speak_new ⟨"x", ⟨none, none, none, none, none⟩⟩ "7" = none :=
  ⟨(c8_missing_field_construction ⟨"x", ⟨none, none, none, none, none⟩⟩ "7").1 rfl,
   (c8_missing_field_construction ⟨"x", ⟨none, none, none, none, none⟩⟩ "7").2.1 rfl,
   (c8_missing_field_construction ⟨"x", ⟨none, none, none, none, none⟩⟩ "7").2.2 rfl⟩

/-- C9: register_module on a node whose module map already contains the
configured alias returns null and leaves the module map, the box index and
the revision counter unchanged. -/
theorem c9_register_module_duplicate_alias (st : Inv) (nid : String) (node : RNode)
    (cfg : ModuleCfg) (hn : alGet st.nodes nid = some node)
    (hdup : (alGet node.modules cfg.a).isSome = true) :
    register_module st nid cfg = (st, none) ∧
    (register_module st nid cfg).1.nodes = st.nodes ∧
    (register_module st nid cfg).1.boxes = st.boxes ∧
    (register_module st nid cfg).1.revision = st.revision := by
  have h : register_module st nid cfg = (st, none) := by
    unfold register_module
    rw [hn]
    unfold add_module
    simp [hdup]
  exact ⟨h, by rw [h], by rw [h], by rw [h]⟩

/-- Witness for C9: re-registering alias m on node n. -/
theorem c9_register_module_duplicate_alias_witness :
    register_module c9w_st "n" ⟨"m"⟩ = (c9w_st, none) :=
  (c9_register_module_duplicate_alias c9w_st "n"
    ⟨"n", [("m", ⟨"m", "n", "n/m"⟩)]⟩ ⟨"m"⟩ (by decide) (by decide)).1

/-- C10: in the handle_value loop, an inactive actor that owns a Box has its
process_signal skipped, yet the recursive handle_value call on its id still
runs with the Box's current (stale) value, before the loop moves on to the
remaining actors. -/
theorem c10_inactive_actor_still_propagates (hs : DHandlers) (fuel : Nat) (a : DActor)
    (rest : List DActor) (v : PyVal) (w : DWorld)
    (hact : a.active = false) (hbox : a.has_box = true) :
    handle_acts hs fuel (a :: rest) v w =
      ((handle_acts hs fuel rest v (handle_value hs fuel a.id (box_value w a.id) w).1).1,
       Event.recurse a.id (box_value w a.id) ::
         ((handle_value hs fuel a.id (box_value w a.id) w).2 ++
          (handle_acts hs fuel rest v (handle_value hs fuel a.id (box_value w a.id) w).1).2)) ∧
    (handle_acts hs fuel (a :: rest) v w).2.head? =
      some (Event.recurse a.id (box_value w a.id)) := by
  have h : handle_acts hs fuel (a :: rest) v w =
      ((handle_acts hs fuel rest v (handle_value hs fuel a.id (box_value w a.id) w).1).1,
       Event.recurse a.id (box_value w a.id) ::
         ((handle_value hs fuel a.id (box_value w a.id) w).2 ++
          (handle_acts hs fuel rest v (handle_value hs fuel a.id (box_value w a.id) w).1).2)) := by
    unfold handle_acts
    rw [acts_go]
    simp [hact, hbox]
  exact ⟨h, by rw [h]; rfl⟩


/-- Witness for C10 at a concrete inactive box-owning actor. -/
theorem c10_inactive_actor_still_propagates_witness :
    (handle_acts [] 3 [c10w_a] (PyVal.str "s") []).2.head? =
      some (Event.recurse "a" (box_value [] "a")) :=
  (c10_inactive_actor_still_propagates [] 3 c10w_a [] (PyVal.str "s") [] rfl rfl).2

/-- Composition of the exception-aware dispatcher loop over list append: the
second chunk runs only when the first chunk did not raise. -/
theorem acts_go_e_append (rec : String → PyVal → DWorld → DRes)
    (l1 l2 : List DActor) (v : PyVal) (w : DWorld) :
    acts_go_e rec (l1 ++ l2) v w =
      (if (acts_go_e rec l1 v w).exn then acts_go_e rec l1 v w
       else
         ⟨(acts_go_e rec l2 v (acts_go_e rec l1 v w).w).w,
          (acts_go_e rec l1 v w).tr ++ (acts_go_e rec l2 v (acts_go_e rec l1 v w).w).tr,
          (acts_go_e rec l2 v (acts_go_e rec l1 v w).w).exn⟩) := by
  induction l1 generalizing w with
  | nil => simp [acts_go_e]
  | cons a rest ih =>
    simp only [List.cons_append, acts_go_e, ih]
    repeat' split
    all_goals simp_all [List.append_assoc]

/-- C3 counterexample: with actors r (raising) and n registered in that order
under key k, dispatching a value to k produces only the invocation of r, the
exception escapes, and the sibling n is never invoked — contradicting the
claim that remaining actors under the same key are still invoked. -/
theorem c3_counterexample :
    (handle_value_e c3ce_hs 2 "k" (PyVal.str "s") []).tr =
      [Event.procSignal "r" (PyVal.str "s")] ∧
    (handle_value_e c3ce_hs 2 "k" (PyVal.str "s") []).exn = true ∧
    Event.procSignal "n" (PyVal.str "s") ∉
      (handle_value_e c3ce_hs 2 "k" (PyVal.str "s") []).tr := by
  refine ⟨rfl, rfl, ?_⟩
  decide

/-- C3 amended: handle_value has no exception handling, so when an actor's
process_signal raises, the exception propagates out of the loop at once: the
trace ends with that actor's invocation and the remaining sibling actors
under the same key are not invoked. -/
theorem c3_amended_exception_aborts_siblings (hs : DHandlers) (fuel : Nat)
    (pre post : List DActor) (a : DActor) (v : PyVal) (w : DWorld)
    (hpre : (handle_acts_e hs fuel pre v w).exn = false)
    (ha : a.active = true) (hr : a.proc_raises = true) :
    handle_acts_e hs fuel (pre ++ a :: post) v w =
      ⟨(handle_acts_e hs fuel pre v w).w,
       (handle_acts_e hs fuel pre v w).tr ++ [Event.procSignal a.id v], true⟩ := by
  unfold handle_acts_e at *
  rw [acts_go_e_append]
  rw [hpre]
  simp only [if_false, Bool.false_eq_true]
  rw [acts_go_e]
  simp [ha, hr]

/-- Witness for C3 amended: the sibling before the raiser completes, the
raiser aborts the rest. -/
theorem c3_amended_exception_aborts_siblings_witness :
    handle_acts_e c3ce_hs 1 ([c3ce_sibling] ++ c3ce_raiser :: [c3ce_sibling])
        (PyVal.str "s") [] =
      ⟨(handle_acts_e c3ce_hs 1 [c3ce_sibling] (PyVal.str "s") []).w,
       (handle_acts_e c3ce_hs 1 [c3ce_sibling] (PyVal.str "s") []).tr ++
         [Event.procSignal "r" (PyVal.str "s")], true⟩ :=
  c3_amended_exception_aborts_siblings c3ce_hs 1 [c3ce_sibling] [c3ce_sibling]
    c3ce_raiser (PyVal.str "s") [] rfl rfl rfl

/-- Fold form of the dispatcher loop: the spec-side fold with an accumulated
trace equals the source loop with the trace appended, provided the recursive
entries agree at the given depth. -/
theorem dc_foldl_eq_handle_acts (hs : DHandlers) (fuel : Nat)
    (hrec : ∀ k v2 w2, dispatch_contract hs fuel k v2 w2 = handle_value hs fuel k v2 w2)
    (acts : List DActor) (v : PyVal) :
    ∀ (w : DWorld) (tr : List Event),
    acts.foldl (dc_step hs fuel v) (w, tr) =
    ((handle_acts hs fuel acts v w).1, tr ++ (handle_acts hs fuel acts v w).2) := by
  induction acts with
  | nil => intro w tr; simp [handle_acts, acts_go]
  | cons a rest ih =>
    intro w tr
    rw [List.foldl_cons]
    by_cases hact : a.active = true
    · by_cases hb : a.has_box = true
      · rw [show dc_step hs fuel v (w, tr) a =
            ((handle_value hs fuel a.id (box_value (proc_effect w a v) a.id)
                (proc_effect w a v)).1,
             (tr ++ [Event.procSignal a.id v]) ++
               Event.recurse a.id (box_value (proc_effect w a v) a.id) ::
                 (handle_value hs fuel a.id (box_value (proc_effect w a v) a.id)
                   (proc_effect w a v)).2) from by
          simp [dc_step, hact, hb, hrec]]
        rw [ih]
        simp [handle_acts, acts_go, hact, hb, List.append_assoc]
      · rw [show dc_step hs fuel v (w, tr) a =
            (proc_effect w a v, tr ++ [Event.procSignal a.id v]) from by
          simp [dc_step, hact, hb]]
        rw [ih]
        simp [handle_acts, acts_go, hact, hb, List.append_assoc]
    · by_cases hb : a.has_box = true
      · rw [show dc_step hs fuel v (w, tr) a =
            ((handle_value hs fuel a.id (box_value w a.id) w).1,
             tr ++ Event.recurse a.id (box_value w a.id) ::
               (handle_value hs fuel a.id (box_value w a.id) w).2) from by
          simp [dc_step, hact, hb, hrec]]
        rw [ih]
        simp [handle_acts, acts_go, hact, hb, List.append_assoc]
      · rw [show dc_step hs fuel v (w, tr) a = (w, tr) from by
          simp [dc_step, hact, hb]]
        rw [ih]
        simp [handle_acts, acts_go, hact, hb]

/-- C2: handle_value is a no-op when no actor is indexed under the key, and
otherwise equals the spec-side dispatch contract: the actors indexed under
the key are walked in registration order, process_signal runs exactly on the
active ones, each box owner triggers the recursive handle_value on its id and
current box value, and the whole chain completes within the call. -/
theorem c2_handle_value_contract (hs : DHandlers) :
    (∀ key, alGet hs key = none → ∀ fuel v w, handle_value hs fuel key v w = (w, [])) ∧
    (∀ fuel key v w, handle_value hs fuel key v w = dispatch_contract hs fuel key v w) := by
  constructor
  · intro key h fuel v w
    cases fuel with
    | zero => rfl
    | succ fuel => simp [handle_value, h]
  · intro fuel
    induction fuel with
    | zero => intro key v w; rfl
    | succ fuel ih =>
      intro key v w
      cases h : alGet hs key with
      | none => simp [handle_value, dispatch_contract, h]
      | some acts =>
        simp only [handle_value, dispatch_contract, h]
        show handle_acts hs fuel acts v w = acts.foldl (dc_step hs fuel v) (w, [])
        rw [dc_foldl_eq_handle_acts hs fuel (fun k v2 w2 => (ih k v2 w2).symm) acts v w []]
        simp

/-- Witness for C2: an unregistered key is a no-op. -/
theorem c2_handle_value_contract_witness :
    handle_value [] 3 "q" (PyVal.str "s") [] = ([], []) :=
  (c2_handle_value_contract []).1 "q" rfl 3 (PyVal.str "s") []

/-- Updating an actor source key never touches the revision. -/
@[simp] theorem set_actor_key_revision (st : Inv) (aid k : String) :
    (set_actor_key st aid k).revision = st.revision := by
  unfold set_actor_key; split <;> rfl

/-- Resolving a source key never touches the revision. -/
@[simp] theorem set_src_key_revision :
    ∀ (fuel : Nat) (st : Inv) (aid : String), (set_src_key fuel st aid).1.revision = st.revision := by
  intro fuel
  induction fuel with
  | zero => intro st aid; rfl
  | succ fuel ih =>
    intro st aid
    simp only [set_src_key]
    cases h : alGet st.actors aid with
    | none => simp
    | some a =>
      cases hk : a.kind with
      | generatorK => simp [hk]
      | handlerK src mdl =>
        cases mdl with
        | some m => simp [hk]
        | none =>
          by_cases hin : (alGet st.actors src).isSome
          · simp [hk, hin, ih]
          · simp [hk, hin]

/-- Registering a box never touches the revision. -/
@[simp] theorem register_box_revision (st : Inv) (k n : String) (o : BoxOwner) :
    (register_box st k n o).revision = st.revision := by
  unfold register_box; split <;> rfl

/-- Registering a handler never touches the revision. -/
@[simp] theorem register_handler_revision (st : Inv) (a : RActor) :
    (register_handler st a).revision = st.revision := by
  unfold register_handler
  cases hk : a.kind with
  | generatorK => simp [hk]
  | handlerK s m =>
    simp only [hk]
    split <;> rfl

/-- Wiping one box entry never touches the revision. -/
theorem wipe_box_revision (st : Inv) (k n : String) (st' : Inv)
    (h : wipe_box st k n = some st') : st'.revision = st.revision := by
  unfold wipe_box at h
  split at h
  · exact absurd h (by simp)
  · split at h
    · injection h with h2; rw [← h2]
    · exact absurd h (by simp)

/-- Wiping a whole box bucket never touches the revision. -/
theorem wipe_boxes_by_key_revision (st : Inv) (k : String) (st' : Inv)
    (h : wipe_boxes_by_key st k = some st') : st'.revision = st.revision := by
  unfold wipe_boxes_by_key at h
  split at h
  · injection h with h2; rw [← h2]
  · exact absurd h (by simp)

/-- Wiping a handler entry never touches the revision. -/
theorem wipe_handler_revision (st : Inv) (a : RActor) (st' : Inv)
    (h : wipe_handler st a = Sum.inl st') : st'.revision = st.revision := by
  unfold wipe_handler at h
  cases hk : a.kind with
  | generatorK =>
    simp only [hk] at h
    injection h with h2; rw [← h2]
  | handlerK s m =>
    simp only [hk] at h
    split at h
    · exact absurd h (by simp)
    · split at h
      · injection h with h2; rw [← h2]
      · exact absurd h (by simp)

/-- C1 amended: revision accounting of the registry operations.  A successful
register_node (fresh id), register_module (node present, new alias),
register_actor (non-null actor) and a wipe_module returning true bump the
revision by one; the no-op cases (duplicate node id, duplicate alias or
missing node, null actor, absent alias) leave the whole state unchanged; a
wipe_actor call that completes without raising bumps the revision by one,
while an aborted one leaves it unchanged.  (The original claim ties the bump
of wipe_module to the presence of the alias; the counterexample shows an
alias removal whose box bucket was lost to a source-key collision returns
false without bumping the revision.) -/
theorem c1_revision_accounting (st : Inv) (fuel : Nat) (ncfg : NodeCfg)
    (nid : String) (mcfg : ModuleCfg) (a : RActor) (mal : String) (aid : String) :
    ((register_node st ncfg).1.revision =
      if (register_node st ncfg).2.isSome then st.revision + 1 else st.revision) ∧
    ((register_node st ncfg).2.isSome ↔ alGet st.nodes ncfg.id = none) ∧
    ((register_node st ncfg).2 = none → (register_node st ncfg).1 = st) ∧
    ((register_module st nid mcfg).1.revision =
      if (register_module st nid mcfg).2.isSome then st.revision + 1 else st.revision) ∧
    ((register_module st nid mcfg).2 = none → (register_module st nid mcfg).1 = st) ∧
    ((register_actor fuel st (some a)).1.revision = st.revision + 1) ∧
    (register_actor fuel st none = (st, none)) ∧
    ((wipe_module st nid mal).1.revision =
      if (wipe_module st nid mal).2 then st.revision + 1 else st.revision) ∧
    (∀ node, alGet st.nodes nid = some node → alGet node.modules mal = none →
      wipe_module st nid mal = (st, false)) ∧
    ((wipe_actor st aid).1.revision =
      if (wipe_actor st aid).2 = none then st.revision + 1 else st.revision) := by
  refine ⟨?_, ?_, ?_, ?_, ?_, ?_, rfl, ?_, ?_, ?_⟩
  · cases hd : alGet st.nodes ncfg.id <;> simp [register_node, hd, changed]
  · cases hd : alGet st.nodes ncfg.id <;> simp [register_node, hd]
  · cases hd : alGet st.nodes ncfg.id <;> intro h <;> simp [register_node, hd] at h ⊢
  · cases hn : alGet st.nodes nid with
    | none => simp [register_module, hn]
    | some node =>
      cases ha : add_module node mcfg with
      | none => simp [register_module, hn, ha]
      | some p => simp [register_module, hn, ha, changed]
  · cases hn : alGet st.nodes nid with
    | none => intro _; simp [register_module, hn]
    | some node =>
      cases ha : add_module node mcfg with
      | none => intro _; simp [register_module, hn, ha]
      | some p => intro h; simp [register_module, hn, ha] at h
  · cases hbn : a.box_name <;> simp [register_actor, hbn, changed]
  · cases hn : alGet st.nodes nid with
    | none => simp [wipe_module, hn]
    | some node =>
      cases hm : alGet node.modules mal with
      | none => simp [wipe_module, hn, hm]
      | some m =>
        simp only [wipe_module, hn, hm]
        cases hw : wipe_boxes_by_key
            { st with nodes := alSet st.nodes nid { node with modules := alDel node.modules mal } }
            m.src_key with
        | none => simp [hw]
        | some st2 =>
          have := wipe_boxes_by_key_revision _ _ _ hw
          simp [hw, changed, this]
  · intro node hn hm
    simp [wipe_module, hn, hm]
  · cases hga : alGet st.actors aid with
    | none => simp [wipe_actor, hga]
    | some a2 =>
      simp only [wipe_actor, hga]
      cases hbn : a2.box_name with
      | none =>
        cases hwh : wipe_handler st a2 with
        | inr e => simp [hbn, hwh]
        | inl st2 =>
          have := wipe_handler_revision _ _ _ hwh
          simp [hbn, hwh, changed, this]
      | some nm =>
        cases hwb : wipe_box st a2.src_key nm with
        | none => simp [hbn, hwb]
        | some st1 =>
          have h1 := wipe_box_revision _ _ _ _ hwb
          cases hwh : wipe_handler st1 a2 with
          | inr e => simp [hbn, hwb, hwh, h1]
          | inl st2 =>
            have h2 := wipe_handler_revision _ _ _ hwh
            simp [hbn, hwb, hwh, changed, h1, h2]

/-- Witness for C1 at concrete no-op and erroring inputs: re-registering node
n, re-registering module m, wiping an absent alias, wiping an unknown actor. -/
theorem c1_revision_accounting_witness :
    (register_node c1w_st ⟨"n"⟩).1 = c1w_st ∧
    (register_module c1w_st "n" ⟨"m"⟩).1 = c1w_st ∧
    wipe_module c1w_st "n" "zz" = (c1w_st, false) ∧
    (wipe_actor c1w_st "q").1.revision = c1w_st.revision := by
  have h := c1_revision_accounting c1w_st 3 ⟨"n"⟩ "n" ⟨"m"⟩
    ⟨"q", AKind.generatorK, none, true, ""⟩ "zz" "q"
  obtain ⟨-, -, h3, -, h5, -, -, -, h9, h10⟩ := h
  refine ⟨h3 (by decide), h5 (by decide), ?_, ?_⟩
  · exact h9 ⟨"n", [("m", ⟨"m", "n", "n/m"⟩)]⟩ (by decide) (by decide)
  · rw [h10]; decide

/-- C1 counterexample: in the registry where nodes a and a/b carry modules
with the colliding source key a/b/c and the first wipe dropped the shared box
bucket, wiping the still-existing alias c removes it from the module map but
returns false and leaves the revision unchanged — refuting the claim that
every wipe_module removing an existing alias strictly increases the
revision. -/
theorem c1_counterexample :
    alGet c1ce_st.nodes "a/b" = some ⟨"a/b", [("c", ⟨"c", "a/b", "a/b/c"⟩)]⟩ ∧
    c1ce_st.revision = 5 ∧
    wipe_module c1ce_st "a/b" "c" =
      ({ revision := 5,
         nodes := [("a", ⟨"a", []⟩), ("a/b", ⟨"a/b", []⟩)],
         actors := [], handlers := [], boxes := [] }, false) := by
  refine ⟨by decide, by decide, by decide⟩

/-! ### Association list toolkit -/

/-- Lookup after an update at the same key. -/
theorem alGet_alSet_self {α : Type} (l : List (String × α)) (k : String) (v : α) :
    alGet (alSet l k v) k = some v := by
  induction l with
  | nil => simp [alSet, alGet]
  | cons p rest ih =>
    obtain ⟨k0, v0⟩ := p
    by_cases h : k0 = k
    · simp [alSet, alGet, h]
    · simp [alSet, alGet, h, ih]

/-- Lookup after an update at a different key. -/
theorem alGet_alSet_ne {α : Type} (l : List (String × α)) (k k' : String) (v : α)
    (h : k' ≠ k) : alGet (alSet l k v) k' = alGet l k' := by
  induction l with
  | nil => simp [alSet, alGet, Ne.symm h]
  | cons p rest ih =>
    obtain ⟨k0, v0⟩ := p
    by_cases h0 : k0 = k
    · subst h0
      simp [alSet, alGet, Ne.symm h]
    · simp [alSet, alGet, h0, ih]

/-- Lookup after a deletion at a different key. -/
theorem alGet_alDel_ne {α : Type} (l : List (String × α)) (k k' : String)
    (h : k' ≠ k) : alGet (alDel l k) k' = alGet l k' := by
  induction l with
  | nil => simp [alDel, alGet]
  | cons p rest ih =>
    obtain ⟨k0, v0⟩ := p
    by_cases h0 : k0 = k
    · subst h0
      simp [alDel, alGet, Ne.symm h]
    · simp [alDel, alGet, h0, ih]

/-- Updating a key with the value it already holds is the identity. -/
theorem alSet_self {α : Type} (l : List (String × α)) (k : String) (v : α)
    (h : alGet l k = some v) : alSet l k v = l := by
  induction l with
  | nil => simp [alGet] at h
  | cons p rest ih =>
    obtain ⟨k0, v0⟩ := p
    by_cases h0 : k0 = k
    · simp [alGet, h0] at h
      simp [alSet, h0, h]
    · simp [alGet, h0] at h
      simp [alSet, h0, ih h]

/-- A successful lookup means the key is listed. -/
theorem alGet_mem_keys {α : Type} (l : List (String × α)) (k : String) (v : α)
    (h : alGet l k = some v) : k ∈ alKeys l := by
  induction l with
  | nil => simp [alGet] at h
  | cons p rest ih =>
    obtain ⟨k0, v0⟩ := p
    by_cases h0 : k0 = k
    · exact h0 ▸ List.mem_cons_self k0 (alKeys rest)
    · simp [alGet, h0] at h
      exact List.mem_cons_of_mem k0 (ih h)

/-- Deleting the key of a nodup association list empties its lookup. -/
theorem alGet_alDel_self {α : Type} (l : List (String × α)) (k : String)
    (hnd : (alKeys l).Nodup) : alGet (alDel l k) k = none := by
  induction l with
  | nil => simp [alDel, alGet]
  | cons p rest ih =>
    obtain ⟨k0, v0⟩ := p
    simp only [alKeys, List.map_cons, List.nodup_cons] at hnd
    by_cases h0 : k0 = k
    · subst h0
      simp only [alDel, if_pos rfl]
      cases hg : alGet rest k0 with
      | none => exact hg
      | some v =>
        exact absurd (by simpa [alKeys] using alGet_mem_keys rest k0 v hg) hnd.1
    · simp [alDel, alGet, h0, ih hnd.2]

/-! ### State-component preservation of the registry helpers -/

/-- Source-key update leaves every non-actor component unchanged. -/
theorem set_actor_key_components (st : Inv) (aid k : String) :
    (set_actor_key st aid k).nodes = st.nodes ∧
    (set_actor_key st aid k).handlers = st.handlers ∧
    (set_actor_key st aid k).boxes = st.boxes := by
  unfold set_actor_key; refine ⟨?_, ?_, ?_⟩ <;> (split <;> rfl)

/-- Lookup of the updated actor after a source-key update. -/
theorem set_actor_key_get_self (st : Inv) (aid k : String) (a : RActor)
    (h : alGet st.actors aid = some a) :
    alGet (set_actor_key st aid k).actors aid = some { a with src_key := k } := by
  unfold set_actor_key
  rw [h]
  exact alGet_alSet_self st.actors aid { a with src_key := k }

/-- Lookup of other actors after a source-key update. -/
theorem set_actor_key_get_ne (st : Inv) (aid k x : String) (h : x ≠ aid) :
    alGet (set_actor_key st aid k).actors x = alGet st.actors x := by
  unfold set_actor_key
  split
  · exact alGet_alSet_ne st.actors aid x _ h
  · rfl

/-- Source-key resolution leaves every non-actor component unchanged. -/
theorem set_src_key_components :
    ∀ (fuel : Nat) (st : Inv) (aid : String),
      (set_src_key fuel st aid).1.nodes = st.nodes ∧
      (set_src_key fuel st aid).1.handlers = st.handlers ∧
      (set_src_key fuel st aid).1.boxes = st.boxes := by
  intro fuel
  induction fuel with
  | zero => intro st aid; exact ⟨rfl, rfl, rfl⟩
  | succ fuel ih =>
    intro st aid
    simp only [set_src_key]
    cases h : alGet st.actors aid with
    | none => exact ⟨rfl, rfl, rfl⟩
    | some a =>
      cases hk : a.kind with
      | generatorK =>
        simp only [hk]
        exact set_actor_key_components st aid SRCKEY_SYSTEM
      | handlerK src mdl =>
        cases mdl with
        | some m =>
          simp only [hk]
          exact set_actor_key_components st aid (form_src_key src m)
        | none =>
          simp only [hk]
          by_cases hin : (alGet st.actors src).isSome = true
          · simp only [hin, if_true]
            have h1 := ih st src
            have h2 := set_actor_key_components (set_src_key fuel st src).1 aid
              (set_src_key fuel st src).2
            exact ⟨h2.1.trans h1.1, h2.2.1.trans h1.2.1, h2.2.2.trans h1.2.2⟩
          · rw [if_neg hin]
            exact set_actor_key_components st aid SRCKEY_NOSRC

/-- Box registration leaves actors, handlers and nodes unchanged. -/
theorem register_box_components (st : Inv) (key nm : String) (o : BoxOwner) :
    (register_box st key nm o).actors = st.actors ∧
    (register_box st key nm o).handlers = st.handlers ∧
    (register_box st key nm o).nodes = st.nodes := by
  unfold register_box; refine ⟨?_, ?_, ?_⟩ <;> (split <;> rfl)

/-- After box registration the bucket of the key holds the owner under the
box name. -/
theorem register_box_get (st : Inv) (key nm : String) (o : BoxOwner) :
    ∃ bucket, alGet (register_box st key nm o).boxes key = some bucket ∧
      alGet bucket nm = some o := by
  unfold register_box
  cases h : alGet st.boxes key with
  | some bucket =>
    exact ⟨alSet bucket nm o, by simp [alGet_alSet_self, h], alGet_alSet_self bucket nm o⟩
  | none =>
    exact ⟨[(nm, o)], by simp [alGet_alSet_self, h], by simp [alGet]⟩

/-- Box registration does not touch buckets of other keys. -/
theorem register_box_get_ne (st : Inv) (key nm : String) (o : BoxOwner) (key' : String)
    (h : key' ≠ key) :
    alGet (register_box st key nm o).boxes key' = alGet st.boxes key' := by
  unfold register_box
  split <;> exact alGet_alSet_ne st.boxes key key' _ h

/-- Handler registration leaves actors, boxes and nodes unchanged. -/
theorem register_handler_components (st : Inv) (a : RActor) :
    (register_handler st a).actors = st.actors ∧
    (register_handler st a).boxes = st.boxes ∧
    (register_handler st a).nodes = st.nodes := by
  unfold register_handler
  cases hk : a.kind with
  | generatorK => exact ⟨rfl, rfl, rfl⟩
  | handlerK s m =>
    simp only
    refine ⟨?_, ?_, ?_⟩ <;> (split <;> rfl)

/-- Resolution of a missing actor is the placeholder with no state change. -/
theorem set_src_key_gone (fuel : Nat) (st : Inv) (aid : String)
    (hga : alGet st.actors aid = none) :
    set_src_key (fuel + 1) st aid = (st, SRCKEY_NOSRC) := by
  simp [set_src_key, hga]

/-- Resolution of a Generator assigns the system key. -/
theorem set_src_key_gen (fuel : Nat) (st : Inv) (aid : String) (a : RActor)
    (hga : alGet st.actors aid = some a) (hk : a.kind = AKind.generatorK) :
    set_src_key (fuel + 1) st aid =
      (set_actor_key st aid SRCKEY_SYSTEM, SRCKEY_SYSTEM) := by
  simp [set_src_key, hga, hk]

/-- Resolution of a module-rooted Handler assigns the module source key. -/
theorem set_src_key_mdl (fuel : Nat) (st : Inv) (aid : String) (a : RActor)
    (src m : String) (hga : alGet st.actors aid = some a)
    (hk : a.kind = AKind.handlerK src (some m)) :
    set_src_key (fuel + 1) st aid =
      (set_actor_key st aid (form_src_key src m), form_src_key src m) := by
  simp [set_src_key, hga, hk]

/-- Resolution through another registered actor recurses and assigns its key. -/
theorem set_src_key_chain (fuel : Nat) (st : Inv) (aid : String) (a : RActor)
    (src : String) (hga : alGet st.actors aid = some a)
    (hk : a.kind = AKind.handlerK src none)
    (hin : (alGet st.actors src).isSome = true) :
    set_src_key (fuel + 1) st aid =
      (set_actor_key (set_src_key fuel st src).1 aid (set_src_key fuel st src).2,
       (set_src_key fuel st src).2) := by
  simp [set_src_key, hga, hk, hin]

/-- Resolution with a dangling declared source assigns the placeholder. -/
theorem set_src_key_dangle (fuel : Nat) (st : Inv) (aid : String) (a : RActor)
    (src : String) (hga : alGet st.actors aid = some a)
    (hk : a.kind = AKind.handlerK src none)
    (hin : ¬(alGet st.actors src).isSome = true) :
    set_src_key (fuel + 1) st aid =
      (set_actor_key st aid SRCKEY_NOSRC, SRCKEY_NOSRC) := by
  simp only [set_src_key, hga, hk]
  rw [if_neg hin]

/-- Entries after source-key resolution: every actor entry is either untouched
or re-keyed to the returned value with the other fields preserved (the
resolution chain writes the single resolved key into each actor it crosses). -/
theorem set_src_key_entries :
    ∀ (fuel : Nat) (st : Inv) (aid x : String) (a2 : RActor),
      alGet (set_src_key fuel st aid).1.actors x = some a2 →
      alGet st.actors x = some a2 ∨
      (a2.src_key = (set_src_key fuel st aid).2 ∧
        ∃ a0, alGet st.actors x = some a0 ∧ a2.id = a0.id ∧ a2.kind = a0.kind ∧
          a2.box_name = a0.box_name ∧ a2.active = a0.active) := by
  intro fuel
  induction fuel with
  | zero => intro st aid x a2 h; exact Or.inl h
  | succ fuel ih =>
    intro st aid x a2 h
    cases hga : alGet st.actors aid with
    | none =>
      rw [set_src_key_gone fuel st aid hga] at h
      exact Or.inl h
    | some a =>
      cases hk : a.kind with
      | generatorK =>
        rw [set_src_key_gen fuel st aid a hga hk] at h ⊢
        by_cases hx : x = aid
        · subst hx
          rw [set_actor_key_get_self st x SRCKEY_SYSTEM a hga] at h
          injection h with h2
          exact Or.inr ⟨by rw [← h2], a, hga, by rw [← h2], by rw [← h2], by rw [← h2],
            by rw [← h2]⟩
        · rw [set_actor_key_get_ne st aid SRCKEY_SYSTEM x hx] at h
          exact Or.inl h
      | handlerK src mdl =>
        cases mdl with
        | some m =>
          rw [set_src_key_mdl fuel st aid a src m hga hk] at h ⊢
          by_cases hx : x = aid
          · subst hx
            rw [set_actor_key_get_self st x (form_src_key src m) a hga] at h
            injection h with h2
            exact Or.inr ⟨by rw [← h2], a, hga, by rw [← h2], by rw [← h2], by rw [← h2],
              by rw [← h2]⟩
          · rw [set_actor_key_get_ne st aid (form_src_key src m) x hx] at h
            exact Or.inl h
        | none =>
          by_cases hin : (alGet st.actors src).isSome = true
          · rw [set_src_key_chain fuel st aid a src hga hk hin] at h ⊢
            by_cases hx : x = aid
            · subst hx
              cases hb : alGet (set_src_key fuel st src).1.actors x with
              | none =>
                unfold set_actor_key at h
                rw [hb] at h
                rw [hb] at h
                exact absurd h (by simp)
              | some a1 =>
                rw [set_actor_key_get_self _ x _ a1 hb] at h
                injection h with h2
                rcases ih st src x a1 hb with h3 | ⟨h3, a0, h4, h5, h6, h7, h8⟩
                · exact Or.inr ⟨by rw [← h2], a1, h3, by rw [← h2], by rw [← h2],
                    by rw [← h2], by rw [← h2]⟩
                · exact Or.inr ⟨by rw [← h2], a0, h4, by rw [← h2]; exact h5,
                    by rw [← h2]; exact h6, by rw [← h2]; exact h7, by rw [← h2]; exact h8⟩
            · rw [set_actor_key_get_ne _ aid _ x hx] at h
              exact ih st src x a2 h
          · rw [set_src_key_dangle fuel st aid a src hga hk hin] at h ⊢
            by_cases hx : x = aid
            · subst hx
              rw [set_actor_key_get_self st x SRCKEY_NOSRC a hga] at h
              injection h with h2
              exact Or.inr ⟨by rw [← h2], a, hga, by rw [← h2], by rw [← h2], by rw [← h2],
                by rw [← h2]⟩
            · rw [set_actor_key_get_ne st aid SRCKEY_NOSRC x hx] at h
              exact Or.inl h

/-- Unfolded form of register_actor on a constructed actor. -/
theorem register_actor_some (fuel : Nat) (st : Inv) (a : RActor) :
    register_actor fuel st (some a) =
      (changed
        (match a.box_name with
         | some name =>
           register_box
             (register_handler
               (set_src_key fuel { st with actors := alSet st.actors a.id a } a.id).1 a)
             (set_src_key fuel { st with actors := alSet st.actors a.id a } a.id).2
             name (BoxOwner.actorB a.id)
         | none =>
           register_handler
             (set_src_key fuel { st with actors := alSet st.actors a.id a } a.id).1 a),
       some a) := rfl

/-- Skipping pass: the resolution loop leaves a state untouched and collects
nothing over keys whose actors are off the placeholder key. -/
theorem resolve_pass_skip (fuel : Nat) :
    ∀ (keys : List String) (st : Inv),
      (∀ x ∈ keys, ∀ a, alGet st.actors x = some a → a.src_key ≠ SRCKEY_NOSRC) →
      resolve_pass fuel keys st = (st, []) := by
  intro keys
  induction keys with
  | nil => intro st _; rfl
  | cons x rest ih =>
    intro st h
    simp only [resolve_pass]
    cases hga : alGet st.actors x with
    | none => exact ih st (fun y hy a ha => h y (List.mem_cons_of_mem x hy) a ha)
    | some a =>
      dsimp only
      rw [if_neg (h x (List.mem_cons_self x rest) a hga)]
      exact ih st (fun y hy a2 ha => h y (List.mem_cons_of_mem x hy) a2 ha)

/-- Splitting the resolution loop over list append. -/
theorem resolve_pass_append (fuel : Nat) :
    ∀ (l1 l2 : List String) (st : Inv),
      resolve_pass fuel (l1 ++ l2) st =
        ((resolve_pass fuel l2 (resolve_pass fuel l1 st).1).1,
         (resolve_pass fuel l1 st).2 ++ (resolve_pass fuel l2 (resolve_pass fuel l1 st).1).2) := by
  intro l1
  induction l1 with
  | nil => intro l2 st; simp [resolve_pass]
  | cons x rest ih =>
    intro l2 st
    simp only [List.cons_append, resolve_pass]
    cases hga : alGet st.actors x with
    | none => exact ih l2 st
    | some a =>
      dsimp only
      simp only [List.append_eq]
      by_cases hp : a.src_key = SRCKEY_NOSRC
      · rw [if_pos hp, if_pos hp]
        by_cases hr : (set_src_key fuel st x).2 = SRCKEY_NOSRC
        · rw [if_pos hr, if_pos hr]
          rw [ih l2 (set_src_key fuel st x).1]
          simp
        · rw [if_neg hr, if_neg hr]
          cases hbn : a.box_name with
          | some nm => exact ih l2 _
          | none => exact ih l2 _
      · rw [if_neg hp, if_neg hp]
        exact ih l2 st

/-- Deferred registration (part one of the deferred-resolution claim): a
Handler actor constructed with an actor-id source that is not yet in the
actor map is registered with the placeholder source key. -/
theorem register_actor_deferred_placeholder (st : Inv) (fuel : Nat) (cfg : ActorCfg)
    (bid srcA : String) (ra : RActor)
    (hcons : handler_new cfg bid = some ra)
    (hsrc : cfg.data.src = some srcA)
    (hmdl : cfg.data.src_mdl = none)
    (hA : alGet st.actors srcA = none)
    (hne : bid ≠ srcA) :
    alGet (register_actor (fuel + 1) st (some ra)).1.actors bid =
      some { ra with src_key := SRCKEY_NOSRC } := by
  unfold handler_new at hcons
  rw [hsrc] at hcons
  simp only [Option.some.injEq] at hcons
  have hid : ra.id = bid := by rw [← hcons]
  have hkind : ra.kind = AKind.handlerK srcA none := by rw [← hcons, hmdl]
  have hga1 : alGet (alSet st.actors ra.id ra) bid = some ra := by
    rw [hid]; exact alGet_alSet_self st.actors bid ra
  have hsrc1 : alGet (alSet st.actors ra.id ra) srcA = none := by
    rw [alGet_alSet_ne st.actors ra.id srcA ra (by rw [hid]; exact Ne.symm hne)]
    exact hA
  have hr : set_src_key (fuel + 1) { st with actors := alSet st.actors ra.id ra } ra.id =
      (set_actor_key { st with actors := alSet st.actors ra.id ra } ra.id SRCKEY_NOSRC,
       SRCKEY_NOSRC) := by
    have hb : alGet ({ st with actors := alSet st.actors ra.id ra } : Inv).actors ra.id
        = some ra := by
      show alGet (alSet st.actors ra.id ra) ra.id = some ra
      exact alGet_alSet_self st.actors ra.id ra
    refine set_src_key_dangle fuel _ ra.id ra srcA hb hkind ?_
    show ¬(alGet (alSet st.actors ra.id ra) srcA).isSome = true
    rw [hsrc1]
    simp
  rw [register_actor_some]
  cases hbn : ra.box_name with
  | none =>
    show alGet (register_handler (set_src_key (fuel + 1)
      { st with actors := alSet st.actors ra.id ra } ra.id).1 ra).actors bid = _
    rw [(register_handler_components _ ra).1, hr]
    show alGet (set_actor_key { st with actors := alSet st.actors ra.id ra }
      ra.id SRCKEY_NOSRC).actors bid = _
    have hfin := set_actor_key_get_self { st with actors := alSet st.actors ra.id ra }
      bid SRCKEY_NOSRC ra hga1
    rw [hid, hbn] at hfin
    rw [hid]
    exact hfin
  | some nm =>
    show alGet (register_box (register_handler (set_src_key (fuel + 1)
        { st with actors := alSet st.actors ra.id ra } ra.id).1 ra)
        (set_src_key (fuel + 1) { st with actors := alSet st.actors ra.id ra } ra.id).2
        nm (BoxOwner.actorB ra.id)).actors bid = _
    rw [(register_box_components _ _ _ _).1, (register_handler_components _ ra).1, hr]
    show alGet (set_actor_key { st with actors := alSet st.actors ra.id ra }
      ra.id SRCKEY_NOSRC).actors bid = _
    have hfin := set_actor_key_get_self { st with actors := alSet st.actors ra.id ra }
      bid SRCKEY_NOSRC ra hga1
    rw [hid, hbn] at hfin
    rw [hid]
    exact hfin

/-- Source-key updates keep the set of registered actors. -/
theorem set_actor_key_presence (st : Inv) (aid k x : String) :
    (alGet (set_actor_key st aid k).actors x).isSome = (alGet st.actors x).isSome := by
  by_cases hx : x = aid
  · subst hx
    cases hga : alGet st.actors x with
    | none =>
      have h2 : set_actor_key st x k = st := by
        unfold set_actor_key
        rw [hga]
      rw [h2, hga]
    | some a =>
      simp [set_actor_key_get_self st x k a hga, hga]
  · rw [set_actor_key_get_ne st aid k x hx]

/-- Source-key resolution keeps the set of registered actors. -/
theorem set_src_key_presence :
    ∀ (fuel : Nat) (st : Inv) (aid x : String),
      (alGet (set_src_key fuel st aid).1.actors x).isSome = (alGet st.actors x).isSome := by
  intro fuel
  induction fuel with
  | zero => intro st aid x; rfl
  | succ fuel ih =>
    intro st aid x
    cases hga : alGet st.actors aid with
    | none => rw [set_src_key_gone fuel st aid hga]
    | some a =>
      cases hk : a.kind with
      | generatorK =>
        rw [set_src_key_gen fuel st aid a hga hk]
        exact set_actor_key_presence st aid SRCKEY_SYSTEM x
      | handlerK src mdl =>
        cases mdl with
        | some m =>
          rw [set_src_key_mdl fuel st aid a src m hga hk]
          exact set_actor_key_presence st aid (form_src_key src m) x
        | none =>
          by_cases hin : (alGet st.actors src).isSome = true
          · rw [set_src_key_chain fuel st aid a src hga hk hin]
            exact (set_actor_key_presence _ aid _ x).trans (ih st src x)
          · rw [set_src_key_dangle fuel st aid a src hga hk hin]
            exact set_actor_key_presence st aid SRCKEY_NOSRC x

/-- Characterization of a successful whole-bucket wipe. -/
theorem wipe_boxes_by_key_some (st : Inv) (k : String) (st' : Inv)
    (h : wipe_boxes_by_key st k = some st') :
    st' = { st with boxes := alDel st.boxes k } := by
  unfold wipe_boxes_by_key at h
  split at h
  · injection h with h2; rw [← h2]
  · exact absurd h (by simp)

/-- Deferred resolution success (part two of the deferred-resolution claim):
in a registry whose only placeholder-keyed actor is B (declared source:
actor A, registered), running load_actors_stop re-resolves B to A's resolved
source key, re-indexes B's box (if any) under that key, and completes
cleanly. -/
theorem load_actors_stop_resolves
    (st : Inv) (fuelA : Nat) (bid aidA : String) (b : RActor) (stA : Inv) (k : String)
    (hB : alGet st.actors bid = some b)
    (hbk : b.kind = AKind.handlerK aidA none)
    (hbp : b.src_key = SRCKEY_NOSRC)
    (hnd : (alKeys st.actors).Nodup)
    (honly : ∀ x a, alGet st.actors x = some a → x ≠ bid → a.src_key ≠ SRCKEY_NOSRC)
    (hAin : (alGet st.actors aidA).isSome = true)
    (hres : set_src_key fuelA st aidA = (stA, k))
    (hk : k ≠ SRCKEY_NOSRC) :
    (∃ b2, alGet (load_actors_stop (fuelA + 1) st).1.actors bid = some b2 ∧
      b2.src_key = k ∧ b2.box_name = b.box_name ∧ b2.kind = b.kind) ∧
    (∀ nm, b.box_name = some nm →
      ∃ bucket, alGet (load_actors_stop (fuelA + 1) st).1.boxes k = some bucket ∧
        alGet bucket nm = some (BoxOwner.actorB bid)) ∧
    (load_actors_stop (fuelA + 1) st).2 = LoadOutcome.clean := by
  obtain ⟨pre, post, hsplit⟩ := List.append_of_mem (alGet_mem_keys _ _ _ hB)
  have hnd2 : (pre ++ bid :: post).Nodup := hsplit ▸ hnd
  have hpre : bid ∉ pre := fun hp =>
    (List.disjoint_of_nodup_append hnd2) hp (List.mem_cons_self _ _)
  have hpost : bid ∉ post := (List.nodup_cons.mp (List.Nodup.of_append_right hnd2)).1
  have hstep : set_src_key (fuelA + 1) st bid = (set_actor_key stA bid k, k) := by
    rw [set_src_key_chain fuelA st bid b aidA hB hbk hAin, hres]
  -- state after the bid step of the first loop
  have hstAfields : ∀ x a, alGet stA.actors x = some a →
      alGet st.actors x = some a ∨
      (a.src_key = k ∧ ∃ a0, alGet st.actors x = some a0 ∧ a.id = a0.id ∧
        a.kind = a0.kind ∧ a.box_name = a0.box_name ∧ a.active = a0.active) := by
    intro x a ha
    have h2 := set_src_key_entries fuelA st aidA x a (by rw [hres]; exact ha)
    rw [hres] at h2
    exact h2
  have hskip_post : ∀ (st2 : Inv), st2.actors = (set_actor_key stA bid k).actors →
      ∀ x ∈ post, ∀ a, alGet st2.actors x = some a → a.src_key ≠ SRCKEY_NOSRC := by
    intro st2 hact2 x hx a ha
    have hxneq : x ≠ bid := fun he => hpost (he ▸ hx)
    rw [hact2, set_actor_key_get_ne stA bid k x hxneq] at ha
    rcases hstAfields x a ha with h1 | ⟨h2, -⟩
    · exact honly x a h1 hxneq
    · rw [h2]; exact hk
  cases hbn : b.box_name with
  | none =>
    have hr1 : resolve_pass (fuelA + 1) (alKeys st.actors) st =
        (set_actor_key stA bid k, []) := by
      rw [hsplit, resolve_pass_append]
      rw [resolve_pass_skip _ pre st
        (fun x hx a ha => honly x a ha (fun he => hpre (he ▸ hx)))]
      have hthis : resolve_pass (fuelA + 1) (bid :: post) st = (set_actor_key stA bid k, []) := by
        simp only [resolve_pass, hB]
        rw [if_pos hbp, hstep]
        dsimp only
        rw [if_neg hk, hbn]
        exact resolve_pass_skip _ post _ (hskip_post _ rfl)
      rw [hthis]
      rfl
    have hbA : (alGet stA.actors bid).isSome = true := by
      have hp2 := set_src_key_presence fuelA st aidA bid
      rw [hres, hB] at hp2
      exact hp2
    obtain ⟨b1, hb1⟩ := Option.isSome_iff_exists.mp hbA
    have hb1f : b1.box_name = b.box_name ∧ b1.kind = b.kind := by
      rcases hstAfields bid b1 hb1 with h1 | ⟨-, a0, h3, -, h5, h6, -⟩
      · rw [hB] at h1
        injection h1 with h2
        rw [h2]
        exact ⟨rfl, rfl⟩
      · rw [hB] at h3
        injection h3 with h4
        rw [← h4] at h5 h6
        exact ⟨h6, h5⟩
    simp only [load_actors_stop, hr1]
    dsimp only [wipe_all]
    cases hw : wipe_boxes_by_key (set_actor_key stA bid k) SRCKEY_NOSRC with
    | some st3 =>
      dsimp only
      rw [wipe_boxes_by_key_some _ _ _ hw]
      refine ⟨⟨{ b1 with src_key := k }, ?_, rfl, hb1f.1.trans hbn, hb1f.2⟩, ?_, rfl⟩
      · exact set_actor_key_get_self stA bid k b1 hb1
      · intro nm hnm
        exact absurd hnm (by simp)
    | none =>
      dsimp only
      refine ⟨⟨{ b1 with src_key := k }, ?_, rfl, hb1f.1.trans hbn, hb1f.2⟩, ?_, rfl⟩
      · exact set_actor_key_get_self stA bid k b1 hb1
      · intro nm hnm
        exact absurd hnm (by simp)
  | some nmB =>
    have hr1 : resolve_pass (fuelA + 1) (alKeys st.actors) st =
        (register_box (set_actor_key stA bid k) k nmB (BoxOwner.actorB bid), []) := by
      rw [hsplit, resolve_pass_append]
      rw [resolve_pass_skip _ pre st
        (fun x hx a ha => honly x a ha (fun he => hpre (he ▸ hx)))]
      have hthis : resolve_pass (fuelA + 1) (bid :: post) st =
          (register_box (set_actor_key stA bid k) k nmB (BoxOwner.actorB bid), []) := by
        simp only [resolve_pass, hB]
        rw [if_pos hbp, hstep]
        dsimp only
        rw [if_neg hk, hbn]
        exact resolve_pass_skip _ post _
          (hskip_post _ (register_box_components _ _ _ _).1)
      rw [hthis]
      rfl
    have hbA : (alGet stA.actors bid).isSome = true := by
      have hp2 := set_src_key_presence fuelA st aidA bid
      rw [hres, hB] at hp2
      exact hp2
    obtain ⟨b1, hb1⟩ := Option.isSome_iff_exists.mp hbA
    have hb1f : b1.box_name = b.box_name ∧ b1.kind = b.kind := by
      rcases hstAfields bid b1 hb1 with h1 | ⟨-, a0, h3, -, h5, h6, -⟩
      · rw [hB] at h1
        injection h1 with h2
        rw [h2]
        exact ⟨rfl, rfl⟩
      · rw [hB] at h3
        injection h3 with h4
        rw [← h4] at h5 h6
        exact ⟨h6, h5⟩
    obtain ⟨bucket, hbu1, hbu2⟩ :=
      register_box_get (set_actor_key stA bid k) k nmB (BoxOwner.actorB bid)
    simp only [load_actors_stop, hr1]
    dsimp only [wipe_all]
    cases hw : wipe_boxes_by_key
        (register_box (set_actor_key stA bid k) k nmB (BoxOwner.actorB bid))
        SRCKEY_NOSRC with
    | some st3 =>
      dsimp only
      rw [wipe_boxes_by_key_some _ _ _ hw]
      refine ⟨⟨{ b1 with src_key := k }, ?_, rfl, hb1f.1.trans hbn, hb1f.2⟩, ?_, rfl⟩
      · show alGet (register_box (set_actor_key stA bid k) k nmB
          (BoxOwner.actorB bid)).actors bid = _
        rw [(register_box_components _ _ _ _).1]
        exact set_actor_key_get_self stA bid k b1 hb1
      · intro nm hnm
        injection hnm with hnm2
        subst hnm2
        refine ⟨bucket, ?_, hbu2⟩
        show alGet (alDel (register_box (set_actor_key stA bid k) k nmB
          (BoxOwner.actorB bid)).boxes SRCKEY_NOSRC) k = some bucket
        rw [alGet_alDel_ne _ SRCKEY_NOSRC k hk]
        exact hbu1
    | none =>
      dsimp only
      refine ⟨⟨{ b1 with src_key := k }, ?_, rfl, hb1f.1.trans hbn, hb1f.2⟩, ?_, rfl⟩
      · show alGet (register_box (set_actor_key stA bid k) k nmB
          (BoxOwner.actorB bid)).actors bid = _
        rw [(register_box_components _ _ _ _).1]
        exact set_actor_key_get_self stA bid k b1 hb1
      · intro nm hnm
        injection hnm with hnm2
        subst hnm2
        exact ⟨bucket, hbu1, hbu2⟩

/-- Updating a present key keeps the key list. -/
theorem alKeys_alSet_present {α : Type} (l : List (String × α)) (k : String) (v : α)
    (h : (alGet l k).isSome = true) : alKeys (alSet l k v) = alKeys l := by
  induction l with
  | nil => simp [alGet] at h
  | cons p rest ih =>
    obtain ⟨k0, v0⟩ := p
    by_cases h0 : k0 = k
    · simp [alSet, alKeys, h0]
    · simp only [alGet, h0, if_false] at h
      have h3 : alSet ((k0, v0) :: rest) k v = (k0, v0) :: alSet rest k v := by
        simp [alSet, h0]
      rw [h3]
      show k0 :: alKeys (alSet rest k v) = k0 :: alKeys rest
      rw [ih h]

/-- Characterization of wipe_actor on a placeholder-keyed dangling actor whose
index entries are present: the wipe succeeds, removes the actor entry, erases
it from its handler bucket and drops its box name from the placeholder box
bucket, touching nothing else. -/
theorem wipe_actor_dangling (sti : Inv) (x : String) (a : RActor) (s : String)
    (hga : alGet sti.actors x = some a) (hid2 : a.id = x)
    (hp : a.src_key = SRCKEY_NOSRC) (hk : a.kind = AKind.handlerK s none)
    (bucket : List String)
    (hbk1 : alGet sti.handlers (get_handler_key s none) = some bucket)
    (hbk2 : x ∈ bucket)
    (hbox : ∀ nm, a.box_name = some nm →
      ∃ bb, alGet sti.boxes SRCKEY_NOSRC = some bb ∧ (alGet bb nm).isSome = true) :
    (wipe_actor sti x).2 = none ∧
    (wipe_actor sti x).1.actors = alDel sti.actors x ∧
    (∀ key, key ≠ get_handler_key s none →
      alGet (wipe_actor sti x).1.handlers key = alGet sti.handlers key) ∧
    (alGet (wipe_actor sti x).1.handlers (get_handler_key s none) =
      some (bucket.erase x)) ∧
    (∀ key, key ≠ SRCKEY_NOSRC →
      alGet (wipe_actor sti x).1.boxes key = alGet sti.boxes key) ∧
    ((alGet (wipe_actor sti x).1.boxes SRCKEY_NOSRC).isSome =
      (alGet sti.boxes SRCKEY_NOSRC).isSome) ∧
    (∀ nm2 bb, alGet sti.boxes SRCKEY_NOSRC = some bb → (alGet bb nm2).isSome = true →
      (∀ nm, a.box_name = some nm → nm2 ≠ nm) →
      ∃ bb2, alGet (wipe_actor sti x).1.boxes SRCKEY_NOSRC = some bb2 ∧
        (alGet bb2 nm2).isSome = true) ∧
    (alKeys (wipe_actor sti x).1.boxes = alKeys sti.boxes) := by
  have hwh : ∀ st1 : Inv, st1.handlers = sti.handlers →
      wipe_handler st1 a = Sum.inl
        { st1 with
          handlers := alSet sti.handlers (get_handler_key s none) (bucket.erase x) } := by
    intro st1 hh
    unfold wipe_handler
    rw [hk]
    dsimp only
    rw [hh, hbk1]
    dsimp only
    rw [hid2, if_pos hbk2]
  cases hbn : a.box_name with
  | none =>
    have hfull : wipe_actor sti x =
        (changed { sti with
          handlers := alSet sti.handlers (get_handler_key s none) (bucket.erase x),
          actors := alDel sti.actors x }, none) := by
      unfold wipe_actor
      rw [hga]
      dsimp only
      rw [hbn]
      dsimp only
      rw [hwh sti rfl]
      dsimp only
      rw [hid2]
    rw [hfull]
    dsimp only [changed]
    refine ⟨rfl, rfl, ?_, ?_, fun key _ => rfl, rfl, ?_, rfl⟩
    · intro key hkey
      exact alGet_alSet_ne sti.handlers _ key _ hkey
    · exact alGet_alSet_self sti.handlers _ _
    · intro nm2 bb hbb hnm2 _
      exact ⟨bb, hbb, hnm2⟩
  | some nm =>
    obtain ⟨bb, hbb1, hbb2⟩ := hbox nm hbn
    have hwb : wipe_box sti a.src_key nm =
        some { sti with boxes := alSet sti.boxes SRCKEY_NOSRC (alDel bb nm) } := by
      unfold wipe_box
      rw [hp, hbb1]
      dsimp only
      rw [if_pos hbb2]
    have hfull : wipe_actor sti x =
        (changed { sti with
          boxes := alSet sti.boxes SRCKEY_NOSRC (alDel bb nm),
          handlers := alSet sti.handlers (get_handler_key s none) (bucket.erase x),
          actors := alDel sti.actors x }, none) := by
      unfold wipe_actor
      rw [hga]
      dsimp only
      rw [hbn]
      dsimp only
      rw [hwb]
      dsimp only
      rw [hwh { sti with boxes := alSet sti.boxes SRCKEY_NOSRC (alDel bb nm) } rfl]
      dsimp only
      rw [hid2]
    rw [hfull]
    dsimp only [changed]
    refine ⟨rfl, rfl, ?_, ?_, ?_, ?_, ?_, ?_⟩
    · intro key hkey
      exact alGet_alSet_ne sti.handlers _ key _ hkey
    · exact alGet_alSet_self sti.handlers _ _
    · intro key hkey
      exact alGet_alSet_ne sti.boxes _ key _ hkey
    · show (alGet (alSet sti.boxes SRCKEY_NOSRC (alDel bb nm)) SRCKEY_NOSRC).isSome = _
      rw [alGet_alSet_self sti.boxes _ _, hbb1]
      rfl
    · intro nm2 bb0 hbb0 hnm2 hneq
      rw [hbb1] at hbb0
      injection hbb0 with hbb0e
      refine ⟨alDel bb nm, alGet_alSet_self sti.boxes _ _, ?_⟩
      rw [alGet_alDel_ne bb nm nm2 (hneq nm rfl)]
      rw [hbb0e]
      exact hnm2
    · exact alKeys_alSet_present sti.boxes _ _ (by rw [hbb1]; rfl)

/-- When every placeholder-keyed actor declares a source absent from the
actor map, the resolution pass leaves the state unchanged and collects
exactly the placeholder-keyed keys, in order. -/
theorem resolve_pass_dangling (fuel : Nat) :
    ∀ (keys : List String) (st : Inv),
      (∀ x a, alGet st.actors x = some a → a.src_key = SRCKEY_NOSRC →
        ∃ s, a.kind = AKind.handlerK s none ∧ alGet st.actors s = none) →
      resolve_pass fuel keys st =
        (st, keys.filter (fun x =>
          match alGet st.actors x with
          | some a => a.src_key == SRCKEY_NOSRC
          | none => false)) := by
  intro keys
  induction keys with
  | nil => intro st _; rfl
  | cons x rest ih =>
    intro st hdangle
    simp only [resolve_pass, List.filter_cons]
    cases hga : alGet st.actors x with
    | none =>
      dsimp only
      rw [ih st hdangle]
      simp
    | some a =>
      dsimp only
      by_cases hp : a.src_key = SRCKEY_NOSRC
      · have hkey : set_src_key fuel st x = (st, SRCKEY_NOSRC) := by
          cases fuel with
          | zero => rfl
          | succ f =>
            obtain ⟨sdep, hks, hgone⟩ := hdangle x a hga hp
            rw [set_src_key_dangle f st x a sdep hga hks (by rw [hgone]; simp)]
            have h2 : ({ a with src_key := SRCKEY_NOSRC } : RActor) = a := by
              rw [← hp]
            unfold set_actor_key
            rw [hga]
            dsimp only
            rw [h2, alSet_self st.actors x a hga]
        rw [if_pos hp, hkey]
        dsimp only
        rw [if_pos rfl, ih st hdangle]
        have hbeq : (a.src_key == SRCKEY_NOSRC) = true := by
          rw [hp]; rfl
        rw [hbeq]
        simp
      · rw [if_neg hp, ih st hdangle]
        have hbeq : (a.src_key == SRCKEY_NOSRC) = false := by
          rw [beq_eq_false_iff_ne]
          exact hp
        rw [hbeq]
        simp

/-- Deleting an entry never introduces a key. -/
theorem alKeys_alDel_mem {α : Type} (l : List (String × α)) (k y : String)
    (h : y ∈ alKeys (alDel l k)) : y ∈ alKeys l := by
  induction l with
  | nil => exact h
  | cons p rest ih =>
    obtain ⟨k0, v0⟩ := p
    by_cases h0 : k0 = k
    · simp only [alDel, if_pos h0] at h
      exact List.mem_cons_of_mem k0 h
    · simp only [alDel, if_neg h0, alKeys, List.map_cons] at h
      rcases List.mem_cons.mp h with he | h2
      · exact he ▸ List.mem_cons_self k0 _
      · exact List.mem_cons_of_mem k0 (ih h2)

/-- Deleting an entry keeps the key list duplicate-free. -/
theorem alKeys_alDel_nodup {α : Type} (l : List (String × α)) (k : String)
    (h : (alKeys l).Nodup) : (alKeys (alDel l k)).Nodup := by
  induction l with
  | nil => exact h
  | cons p rest ih =>
    obtain ⟨k0, v0⟩ := p
    simp only [alKeys, List.map_cons, List.nodup_cons] at h
    by_cases h0 : k0 = k
    · simp only [alDel, if_pos h0]
      exact h.2
    · simp only [alDel, if_neg h0, alKeys, List.map_cons, List.nodup_cons]
      exact ⟨fun hm => h.1 (alKeys_alDel_mem rest k k0 hm), ih h.2⟩

/-- Wiping a nodup list of placeholder-keyed, dangling, fully-indexed actors
succeeds, removes exactly those actors, erases each from its handler bucket,
and only shrinks the placeholder box bucket. -/
theorem wipe_all_dangling :
    ∀ (rem : List String) (sti : Inv),
      rem.Nodup →
      (alKeys sti.actors).Nodup →
      (∀ x ∈ rem, ∃ a s, alGet sti.actors x = some a ∧ a.id = x ∧
        a.src_key = SRCKEY_NOSRC ∧ a.kind = AKind.handlerK s none ∧
        (∃ bucket, alGet sti.handlers (get_handler_key s none) = some bucket ∧
          bucket.Nodup ∧ x ∈ bucket) ∧
        (∀ nm, a.box_name = some nm →
          ∃ bb, alGet sti.boxes SRCKEY_NOSRC = some bb ∧
            (alGet bb nm).isSome = true)) →
      (∀ x1 x2 a1 a2 nm, x1 ∈ rem → x2 ∈ rem →
        alGet sti.actors x1 = some a1 → alGet sti.actors x2 = some a2 →
        a1.box_name = some nm → a2.box_name = some nm → x1 = x2) →
      (wipe_all rem sti).2 = none ∧
      (∀ x ∈ rem, alGet (wipe_all rem sti).1.actors x = none) ∧
      (∀ x, x ∉ rem → alGet (wipe_all rem sti).1.actors x = alGet sti.actors x) ∧
      (∀ key bucket1, alGet (wipe_all rem sti).1.handlers key = some bucket1 →
        ∃ bucket0, alGet sti.handlers key = some bucket0 ∧
          (∀ y, y ∈ bucket1 → y ∈ bucket0)) ∧
      (∀ x ∈ rem, ∀ a s, alGet sti.actors x = some a →
        a.kind = AKind.handlerK s none →
        ∀ bucket1, alGet (wipe_all rem sti).1.handlers (get_handler_key s none) =
          some bucket1 → x ∉ bucket1) ∧
      ((alGet (wipe_all rem sti).1.boxes SRCKEY_NOSRC).isSome =
        (alGet sti.boxes SRCKEY_NOSRC).isSome) ∧
      (alKeys (wipe_all rem sti).1.boxes = alKeys sti.boxes) := by
  intro rem
  induction rem with
  | nil =>
    intro sti _ _ _ _
    exact ⟨rfl, by simp, fun x _ => rfl,
      fun key b1 hb1 => ⟨b1, hb1, fun y hy => hy⟩, by simp, rfl, rfl⟩
  | cons x rest ih =>
    intro sti hnd hand hall hdist
    obtain ⟨a, s, hga, hid2, hp, hk, ⟨bucket, hbk1, hbknd, hbk2⟩, hbox⟩ :=
      hall x (List.mem_cons_self x rest)
    obtain ⟨hw2, hwact, hwhne, hwhself, hwbne, hwbsome, hwbkeep, hwbkeys⟩ :=
      wipe_actor_dangling sti x a s hga hid2 hp hk bucket hbk1 hbk2 hbox
    have hndr : rest.Nodup := (List.nodup_cons.mp hnd).2
    have hxrest : x ∉ rest := (List.nodup_cons.mp hnd).1
    -- the state after wiping x
    obtain ⟨st3, hst3⟩ : ∃ st3, wipe_actor sti x = (st3, none) := by
      refine ⟨(wipe_actor sti x).1, ?_⟩
      rw [← hw2]
    rw [hst3] at hwact hwhne hwhself hwbne hwbsome hwbkeep hwbkeys
    dsimp only at hwact hwhne hwhself hwbne hwbsome hwbkeep hwbkeys
    -- hypotheses of the IH at st3
    have hall3 : ∀ y ∈ rest, ∃ a2 s2, alGet st3.actors y = some a2 ∧ a2.id = y ∧
        a2.src_key = SRCKEY_NOSRC ∧ a2.kind = AKind.handlerK s2 none ∧
        (∃ bucket2, alGet st3.handlers (get_handler_key s2 none) = some bucket2 ∧
          bucket2.Nodup ∧ y ∈ bucket2) ∧
        (∀ nm, a2.box_name = some nm →
          ∃ bb, alGet st3.boxes SRCKEY_NOSRC = some bb ∧
            (alGet bb nm).isSome = true) := by
      intro y hy
      obtain ⟨a2, s2, hga2, hid3, hp2, hk2, ⟨bucket2, hbq1, hbqnd, hbq2⟩, hbox2⟩ :=
        hall y (List.mem_cons_of_mem x hy)
      have hyx : y ≠ x := fun he => hxrest (he ▸ hy)
      refine ⟨a2, s2, ?_, hid3, hp2, hk2, ?_, ?_⟩
      · rw [hwact, alGet_alDel_ne sti.actors x y hyx]
        exact hga2
      · by_cases hkey : get_handler_key s2 none = get_handler_key s none
        · refine ⟨bucket.erase x, ?_, hbknd.erase x, ?_⟩
          · rw [hkey, hwhself]
          · rw [hkey] at hbq1
            rw [hbk1] at hbq1
            injection hbq1 with hbq1e
            exact (List.mem_erase_of_ne hyx).mpr (hbq1e ▸ hbq2)
        · exact ⟨bucket2, by rw [hwhne _ hkey]; exact hbq1, hbqnd, hbq2⟩
      · intro nm hnm
        obtain ⟨bb, hbb1, hbb2⟩ := hbox2 nm hnm
        refine hwbkeep nm bb hbb1 hbb2 ?_
        intro nmx hnmx hcontra
        subst hcontra
        exact hyx (hdist y x a2 a nm (List.mem_cons_of_mem x hy)
          (List.mem_cons_self x rest) hga2 hga hnm hnmx)
    have hdist3 : ∀ x1 x2 a1 a2 nm, x1 ∈ rest → x2 ∈ rest →
        alGet st3.actors x1 = some a1 → alGet st3.actors x2 = some a2 →
        a1.box_name = some nm → a2.box_name = some nm → x1 = x2 := by
      intro x1 x2 a1 a2 nm h1 h2 hg1 hg2 hb1 hb2
      have hx1 : x1 ≠ x := fun he => hxrest (he ▸ h1)
      have hx2 : x2 ≠ x := fun he => hxrest (he ▸ h2)
      rw [hwact, alGet_alDel_ne sti.actors x x1 hx1] at hg1
      rw [hwact, alGet_alDel_ne sti.actors x x2 hx2] at hg2
      exact hdist x1 x2 a1 a2 nm (List.mem_cons_of_mem x h1)
        (List.mem_cons_of_mem x h2) hg1 hg2 hb1 hb2
    have hand3 : (alKeys st3.actors).Nodup := by
      rw [hwact]
      exact alKeys_alDel_nodup sti.actors x hand
    obtain ⟨ih1, ih2, ih3, ih4, ih5, ih6, ih7⟩ := ih st3 hndr hand3 hall3 hdist3
    have hwa : wipe_all (x :: rest) sti = wipe_all rest st3 := by
      simp only [wipe_all, hst3]
    rw [hwa]
    refine ⟨ih1, ?_, ?_, ?_, ?_, ?_, ?_⟩
    · intro y hy
      rcases List.mem_cons.mp hy with he | hy2
      · subst he
        rw [ih3 y hxrest, hwact]
        exact alGet_alDel_self sti.actors y hand
      · exact ih2 y hy2
    · intro y hy
      have hyx : y ≠ x := fun he => hy (he ▸ List.mem_cons_self x rest)
      have hyr : y ∉ rest := fun h2 => hy (List.mem_cons_of_mem x h2)
      rw [ih3 y hyr, hwact, alGet_alDel_ne sti.actors x y hyx]
    · intro key bucket1 hb1
      obtain ⟨bucketM, hbm1, hbm2⟩ := ih4 key bucket1 hb1
      by_cases hkey : key = get_handler_key s none
      · rw [hkey, hwhself] at hbm1
        injection hbm1 with hbm1e
        refine ⟨bucket, by rw [hkey]; exact hbk1, fun y hy => ?_⟩
        exact (List.erase_subset x bucket) (hbm1e ▸ hbm2 y hy)
      · rw [hwhne key hkey] at hbm1
        exact ⟨bucketM, hbm1, hbm2⟩
    · intro y hy a2 s2 hga2 hk2 bucket1 hb1
      rcases List.mem_cons.mp hy with he | hy2
      · subst he
        rw [hga] at hga2
        injection hga2 with hga2e
        rw [← hga2e] at hk2
        rw [hk] at hk2
        injection hk2 with hk2e hk2m
        subst hk2e
        obtain ⟨bucketM, hbm1, hbm2⟩ := ih4 (get_handler_key s none) bucket1 hb1
        rw [hwhself] at hbm1
        injection hbm1 with hbm1e
        intro hcontra
        exact (hbknd.not_mem_erase) (hbm1e ▸ hbm2 y hcontra)
      · have hyx : y ≠ x := fun he => hxrest (he ▸ hy2)
        refine ih5 y hy2 a2 s2 ?_ hk2 bucket1 hb1
        rw [hwact, alGet_alDel_ne sti.actors x y hyx]
        exact hga2
    · rw [ih6, hwbsome]
    · rw [ih7, hwbkeys]

/-- Unresolved-actor removal (part three of the deferred-resolution claim):
when every placeholder-keyed actor is directly dangling (its declared source
is absent from the actor map), is indexed consistently, and no two such
actors share a box name, load_actors_stop completes cleanly, removes exactly
the placeholder-keyed actors from the actor map, leaves no trace of them in
their handler buckets, and drops the whole placeholder box bucket. -/
theorem load_actors_stop_removes (fuel : Nat) (st : Inv)
    (hnda : (alKeys st.actors).Nodup)
    (hndb : (alKeys st.boxes).Nodup)
    (hdangle : ∀ x a, alGet st.actors x = some a → a.src_key = SRCKEY_NOSRC →
      a.id = x ∧ ∃ s, a.kind = AKind.handlerK s none ∧ alGet st.actors s = none ∧
        (∃ bucket, alGet st.handlers (get_handler_key s none) = some bucket ∧
          bucket.Nodup ∧ x ∈ bucket) ∧
        (∀ nm, a.box_name = some nm →
          ∃ bb, alGet st.boxes SRCKEY_NOSRC = some bb ∧ (alGet bb nm).isSome = true))
    (hdist : ∀ x1 x2 a1 a2 nm,
      alGet st.actors x1 = some a1 → alGet st.actors x2 = some a2 →
      a1.src_key = SRCKEY_NOSRC → a2.src_key = SRCKEY_NOSRC →
      a1.box_name = some nm → a2.box_name = some nm → x1 = x2) :
    (load_actors_stop fuel st).2 = LoadOutcome.clean ∧
    (∀ x a, alGet st.actors x = some a → a.src_key = SRCKEY_NOSRC →
      alGet (load_actors_stop fuel st).1.actors x = none) ∧
    (∀ x a, alGet st.actors x = some a → a.src_key ≠ SRCKEY_NOSRC →
      alGet (load_actors_stop fuel st).1.actors x = some a) ∧
    (∀ x a s, alGet st.actors x = some a → a.src_key = SRCKEY_NOSRC →
      a.kind = AKind.handlerK s none →
      ∀ bucket1, alGet (load_actors_stop fuel st).1.handlers
        (get_handler_key s none) = some bucket1 → x ∉ bucket1) ∧
    alGet (load_actors_stop fuel st).1.boxes SRCKEY_NOSRC = none := by
  have hr1 : resolve_pass fuel (alKeys st.actors) st =
      (st, (alKeys st.actors).filter (fun x =>
        match alGet st.actors x with
        | some a => a.src_key == SRCKEY_NOSRC
        | none => false)) :=
    resolve_pass_dangling fuel (alKeys st.actors) st
      (fun x a hga hp => (hdangle x a hga hp).2.elim
        (fun s hs => ⟨s, hs.1, hs.2.1⟩))
  have hmem : ∀ x a, alGet st.actors x = some a → a.src_key = SRCKEY_NOSRC →
      x ∈ (alKeys st.actors).filter (fun x =>
        match alGet st.actors x with
        | some a => a.src_key == SRCKEY_NOSRC
        | none => false) := by
    intro x a hga hp
    refine List.mem_filter.mpr ⟨alGet_mem_keys st.actors x a hga, ?_⟩
    show (match alGet st.actors x with
      | some a => a.src_key == SRCKEY_NOSRC
      | none => false) = true
    rw [hga]
    dsimp only
    rw [hp]
    rfl
  have hnmem : ∀ x a, alGet st.actors x = some a → a.src_key ≠ SRCKEY_NOSRC →
      x ∉ (alKeys st.actors).filter (fun x =>
        match alGet st.actors x with
        | some a => a.src_key == SRCKEY_NOSRC
        | none => false) := by
    intro x a hga hp hin
    have h2 := (List.mem_filter.mp hin).2
    rw [hga] at h2
    dsimp only at h2
    exact hp (eq_of_beq h2)
  have hsrc_of_mem : ∀ x, x ∈ (alKeys st.actors).filter (fun x =>
        match alGet st.actors x with
        | some a => a.src_key == SRCKEY_NOSRC
        | none => false) →
      ∃ a, alGet st.actors x = some a ∧ a.src_key = SRCKEY_NOSRC := by
    intro x hin
    have h2 := (List.mem_filter.mp hin).2
    cases hga : alGet st.actors x with
    | none =>
      rw [hga] at h2
      dsimp only at h2
      exact absurd h2 (by simp)
    | some a =>
      rw [hga] at h2
      dsimp only at h2
      exact ⟨a, rfl, eq_of_beq h2⟩
  obtain ⟨w1, w2, w3, w4, w5, w6, w7⟩ :=
    wipe_all_dangling ((alKeys st.actors).filter (fun x =>
        match alGet st.actors x with
        | some a => a.src_key == SRCKEY_NOSRC
        | none => false)) st
      (hnda.filter _)
      hnda
      (by
        intro x hx
        obtain ⟨a, hga, hp⟩ := hsrc_of_mem x hx
        obtain ⟨hid, s, hk, -, hbucket, hbox⟩ := hdangle x a hga hp
        exact ⟨a, s, hga, hid, hp, hk, hbucket, hbox⟩)
      (by
        intro x1 x2 a1 a2 nm h1 h2 hg1 hg2 hb1 hb2
        obtain ⟨a1b, hg1b, hp1⟩ := hsrc_of_mem x1 h1
        obtain ⟨a2b, hg2b, hp2⟩ := hsrc_of_mem x2 h2
        rw [hg1] at hg1b
        rw [hg2] at hg2b
        injection hg1b with he1
        injection hg2b with he2
        exact hdist x1 x2 a1 a2 nm hg1 hg2 (he1 ▸ hp1) (he2 ▸ hp2) hb1 hb2)
  obtain ⟨st2, hst2⟩ : ∃ st2, wipe_all ((alKeys st.actors).filter (fun x =>
      match alGet st.actors x with
      | some a => a.src_key == SRCKEY_NOSRC
      | none => false)) st = (st2, none) := by
    refine ⟨(wipe_all ((alKeys st.actors).filter (fun x =>
      match alGet st.actors x with
      | some a => a.src_key == SRCKEY_NOSRC
      | none => false)) st).1, ?_⟩
    rw [← w1, Prod.mk.eta]
  rw [hst2] at w2 w3 w4 w5 w6 w7
  dsimp only at w2 w3 w4 w5 w6 w7
  cases hb : alGet st2.boxes SRCKEY_NOSRC with
  | some bb =>
    have hwb : wipe_boxes_by_key st2 SRCKEY_NOSRC =
        some { st2 with boxes := alDel st2.boxes SRCKEY_NOSRC } := by
      unfold wipe_boxes_by_key
      rw [hb]
      rfl
    have hfull : load_actors_stop fuel st =
        ({ st2 with boxes := alDel st2.boxes SRCKEY_NOSRC }, LoadOutcome.clean) := by
      simp only [load_actors_stop, hr1]
      rw [hst2]
      dsimp only
      rw [hwb]
    rw [hfull]
    refine ⟨rfl, ?_, ?_, ?_, ?_⟩
    · intro x a hga hp
      exact w2 x (hmem x a hga hp)
    · intro x a hga hp
      exact (w3 x (hnmem x a hga hp)).trans hga
    · intro x a s hga hp hk bucket1 hb1
      exact w5 x (hmem x a hga hp) a s hga hk bucket1 hb1
    · show alGet (alDel st2.boxes SRCKEY_NOSRC) SRCKEY_NOSRC = none
      exact alGet_alDel_self st2.boxes SRCKEY_NOSRC (by rw [w7]; exact hndb)
  | none =>
    have hwb : wipe_boxes_by_key st2 SRCKEY_NOSRC = none := by
      unfold wipe_boxes_by_key
      rw [hb]
      rfl
    have hfull : load_actors_stop fuel st = (st2, LoadOutcome.clean) := by
      simp only [load_actors_stop, hr1]
      rw [hst2]
      dsimp only
      rw [hwb]
    rw [hfull]
    refine ⟨rfl, ?_, ?_, ?_, hb⟩
    · intro x a hga hp
      exact w2 x (hmem x a hga hp)
    · intro x a hga hp
      exact (w3 x (hnmem x a hga hp)).trans hga
    · intro x a s hga hp hk bucket1 hb1
      exact w5 x (hmem x a hga hp) a s hga hk bucket1 hb1

/-- A successful lookup returns an entry of the association list. -/
theorem alGet_entry {α : Type} :
    ∀ (l : List (String × α)) (x : String) (a : α),
      alGet l x = some a → (x, a) ∈ l := by
  intro l
  induction l with
  | nil => intro x a h; exact absurd h (by simp [alGet])
  | cons p rest ih =>
    intro x a h
    obtain ⟨k0, v0⟩ := p
    by_cases h0 : k0 = x
    · simp only [alGet, if_pos h0] at h
      injection h with h2
      rw [← h0, h2]
      exact List.mem_cons_self _ _
    · simp only [alGet, if_neg h0] at h
      exact List.mem_cons_of_mem _ (ih x a h)

/-- C4 (corrected): deferred source resolution.  (i) Registering a Handler
whose declared source actor id is absent from the actor map stores the
placeholder source key.  (ii) Once the source actor is present, running
load_actors_stop rewrites the deferred actor's source key to the source's
resolved key, re-indexes the deferred actor's box under that key, and
completes cleanly.  (iii) Actors whose source key is still the placeholder
after the resolution pass are removed from the actor map together with their
handler-index entry and the placeholder box bucket — provided the cleanup
does not abort, which holds when every placeholder actor is directly
dangling, consistently indexed, and no two placeholder actors share a box
name; the spec's unconditional removal sentence fails on a shared box name
(see the counterexample: the second wipe raises a KeyError that
load_actors_stop catches, abandoning the rest of the cleanup). -/
theorem c4_deferred_resolution :
    (∀ (st : Inv) (fuel : Nat) (cfg : ActorCfg) (bid srcA : String) (ra : RActor),
      handler_new cfg bid = some ra →
      cfg.data.src = some srcA →
      cfg.data.src_mdl = none →
      alGet st.actors srcA = none →
      bid ≠ srcA →
      alGet (register_actor (fuel + 1) st (some ra)).1.actors bid =
        some { ra with src_key := SRCKEY_NOSRC }) ∧
    (∀ (st : Inv) (fuelA : Nat) (bid aidA : String) (b : RActor) (stA : Inv)
        (k : String),
      alGet st.actors bid = some b →
      b.kind = AKind.handlerK aidA none →
      b.src_key = SRCKEY_NOSRC →
      (alKeys st.actors).Nodup →
      (∀ x a, alGet st.actors x = some a → x ≠ bid → a.src_key ≠ SRCKEY_NOSRC) →
      (alGet st.actors aidA).isSome = true →
      set_src_key fuelA st aidA = (stA, k) →
      k ≠ SRCKEY_NOSRC →
      (∃ b2, alGet (load_actors_stop (fuelA + 1) st).1.actors bid = some b2 ∧
        b2.src_key = k ∧ b2.box_name = b.box_name ∧ b2.kind = b.kind) ∧
      (∀ nm, b.box_name = some nm →
        ∃ bucket, alGet (load_actors_stop (fuelA + 1) st).1.boxes k = some bucket ∧
          alGet bucket nm = some (BoxOwner.actorB bid)) ∧
      (load_actors_stop (fuelA + 1) st).2 = LoadOutcome.clean) ∧
    (∀ (fuel : Nat) (st : Inv),
      (alKeys st.actors).Nodup →
      (alKeys st.boxes).Nodup →
      (∀ x a, alGet st.actors x = some a → a.src_key = SRCKEY_NOSRC →
        a.id = x ∧ ∃ s, a.kind = AKind.handlerK s none ∧ alGet st.actors s = none ∧
          (∃ bucket, alGet st.handlers (get_handler_key s none) = some bucket ∧
            bucket.Nodup ∧ x ∈ bucket) ∧
          (∀ nm, a.box_name = some nm →
            ∃ bb, alGet st.boxes SRCKEY_NOSRC = some bb ∧
              (alGet bb nm).isSome = true)) →
      (∀ x1 x2 a1 a2 nm,
        alGet st.actors x1 = some a1 → alGet st.actors x2 = some a2 →
        a1.src_key = SRCKEY_NOSRC → a2.src_key = SRCKEY_NOSRC →
        a1.box_name = some nm → a2.box_name = some nm → x1 = x2) →
      (load_actors_stop fuel st).2 = LoadOutcome.clean ∧
      (∀ x a, alGet st.actors x = some a → a.src_key = SRCKEY_NOSRC →
        alGet (load_actors_stop fuel st).1.actors x = none) ∧
      (∀ x a, alGet st.actors x = some a → a.src_key ≠ SRCKEY_NOSRC →
        alGet (load_actors_stop fuel st).1.actors x = some a) ∧
      (∀ x a s, alGet st.actors x = some a → a.src_key = SRCKEY_NOSRC →
        a.kind = AKind.handlerK s none →
        ∀ bucket1, alGet (load_actors_stop fuel st).1.handlers
          (get_handler_key s none) = some bucket1 → x ∉ bucket1) ∧
      alGet (load_actors_stop fuel st).1.boxes SRCKEY_NOSRC = none) :=
  ⟨fun st fuel cfg bid srcA ra h1 h2 h3 h4 h5 =>
    register_actor_deferred_placeholder st fuel cfg bid srcA ra h1 h2 h3 h4 h5,
   fun st fuelA bid aidA b stA k h1 h2 h3 h4 h5 h6 h7 h8 =>
    load_actors_stop_resolves st fuelA bid aidA b stA k h1 h2 h3 h4 h5 h6 h7 h8,
   fun fuel st h1 h2 h3 h4 =>
    load_actors_stop_removes fuel st h1 h2 h3 h4⟩

/-- C4 counterexample to the unconditional removal sentence: in c4ce_st two
dangling actors share the box name `b`; after load_actors_stop runs, actor
`2` is still in the actor map with the placeholder source key, and the
outcome records the KeyError abort of the cleanup loop. -/
theorem c4_counterexample :
    alGet (load_actors_stop 5 c4ce_st).1.actors "2" =
      some { id := "2", kind := AKind.handlerK "zz" none, box_name := some "b",
             active := true, src_key := SRCKEY_NOSRC } ∧
    (load_actors_stop 5 c4ce_st).2 = LoadOutcome.abortedKey := by
  decide

/-- Witness for C4: part (i) at the empty registry with configuration
c4w_cfgB, part (ii) at c4w_st (B deferred, then A registered), part (iii) at
c4w3_st (one dangling actor D). -/
theorem c4_deferred_resolution_witness :
    alGet (register_actor (4 + 1) inv_init (some c4w_raB)).1.actors "B" =
      some { c4w_raB with src_key := SRCKEY_NOSRC } ∧
    (∃ b2, alGet (load_actors_stop (4 + 1) c4w_st).1.actors "B" = some b2 ∧
      b2.src_key = "n1/m1" ∧ b2.box_name = c4w_bB.box_name ∧
      b2.kind = c4w_bB.kind) ∧
    (∃ bucket, alGet (load_actors_stop (4 + 1) c4w_st).1.boxes "n1/m1" =
      some bucket ∧ alGet bucket "bb" = some (BoxOwner.actorB "B")) ∧
    (load_actors_stop (4 + 1) c4w_st).2 = LoadOutcome.clean ∧
    (load_actors_stop 5 c4w3_st).2 = LoadOutcome.clean ∧
    alGet (load_actors_stop 5 c4w3_st).1.actors "D" = none ∧
    alGet (load_actors_stop 5 c4w3_st).1.boxes SRCKEY_NOSRC = none := by
  have h1 := c4_deferred_resolution.1 inv_init 4 c4w_cfgB "B" "A" c4w_raB
    (by decide) (by decide) (by decide) (by decide) (by decide)
  have h2 := c4_deferred_resolution.2.1 c4w_st 4 "B" "A" c4w_bB c4w_st "n1/m1"
    (by decide) (by decide) (by decide) (by decide)
    (by
      intro x a hga hxb
      have hm := alGet_entry c4w_st.actors x a hga
      have he : c4w_st.actors = [("B", c4w_bB), ("A", c4w_aA)] := by decide
      rw [he] at hm
      simp only [List.mem_cons, List.not_mem_nil, or_false] at hm
      rcases hm with hm | hm
      · exact absurd (congrArg Prod.fst hm) hxb
      · have ha : a = c4w_aA := congrArg Prod.snd hm
        rw [ha]
        decide)
    (by decide) (by decide) (by decide)
  have h3 := c4_deferred_resolution.2.2 5 c4w3_st (by decide) (by decide)
    (by
      intro x a hga hp
      have hm := alGet_entry c4w3_st.actors x a hga
      have he : c4w3_st.actors = [("D", c4w3_dD)] := by decide
      rw [he] at hm
      simp only [List.mem_cons, List.not_mem_nil, or_false] at hm
      injection hm with hm1 hm2
      subst hm1
      subst hm2
      refine ⟨rfl, "gone", rfl, by decide,
        ⟨["D"], by decide, by decide, by decide⟩, ?_⟩
      intro nm hnm
      injection hnm with hnm2
      rw [← hnm2]
      exact ⟨[("bx", BoxOwner.actorB "D")], by decide, by decide⟩)
    (by
      intro x1 x2 a1 a2 nm hg1 hg2 hp1 hp2 hb1 hb2
      have hm1 := alGet_entry c4w3_st.actors x1 a1 hg1
      have hm2 := alGet_entry c4w3_st.actors x2 a2 hg2
      have he : c4w3_st.actors = [("D", c4w3_dD)] := by decide
      rw [he] at hm1 hm2
      simp only [List.mem_cons, List.not_mem_nil, or_false] at hm1 hm2
      injection hm1 with hx1 ha1
      injection hm2 with hx2 ha2
      rw [hx1, hx2])
  exact ⟨h1, h2.1, h2.2.1 "bb" rfl, h2.2.2, h3.1,
    h3.2.1 "D" c4w3_dD (by decide) rfl, h3.2.2.2.2⟩

/-- Peeling the head off a mapped initial segment. -/
theorem range_map_succ_shift (f : Nat → Int) (n : Nat) :
    (List.range (n + 1)).map f = f 0 :: (List.range n).map (fun k => f (k + 1)) := by
  rw [List.range_succ_eq_map, List.map_cons, List.map_map]
  rfl

/-- Closed form of the fuel-bounded schedule loop: with adequate fuel it
lists start plus every multiple of the period that does not pass the stop. -/
theorem etGo_closed (δ : Int) (hδ : 0 < δ) (e : Int) :
    ∀ (fuel : Nat) (s : Int), e + 1 - s ≤ (fuel : Int) →
      etGo δ e fuel s =
        (List.range (if s ≤ e then ((e - s).ediv δ).toNat + 1 else 0)).map
          (fun k : Nat => s + (k : Int) * δ) := by
  intro fuel
  induction fuel with
  | zero =>
    intro s hs
    have hnot : ¬ s ≤ e := by
      simp only [Nat.cast_zero] at hs
      omega
    rw [if_neg hnot]
    rfl
  | succ fuel ih =>
    intro s hs
    push_cast at hs
    show (if s ≤ e then s :: etGo δ e fuel (s + δ) else []) = _
    by_cases hle : s ≤ e
    · rw [if_pos hle, if_pos hle]
      by_cases hle2 : s + δ ≤ e
      · have hm : 0 ≤ (e - (s + δ)).ediv δ :=
          Int.ediv_nonneg (by omega) (le_of_lt hδ)
        have hdiv : (e - s).ediv δ = (e - (s + δ)).ediv δ + 1 := by
          have h2 : e - s = (e - (s + δ)) + 1 * δ := by ring
          rw [h2]
          exact Int.add_mul_ediv_right _ 1 (ne_of_gt hδ)
        have hnat : ((e - s).ediv δ).toNat + 1 =
            ((((e - (s + δ)).ediv δ).toNat + 1) + 1) := by
          omega
        rw [hnat, range_map_succ_shift]
        rw [ih (s + δ) (by omega), if_pos hle2]
        congr 1
        · simp
        · refine List.map_eq_map_iff.mpr ?_
          intro k hk
          push_cast
          ring
      · rw [ih (s + δ) (by omega)]
        rw [if_neg hle2]
        have hdiv : (e - s).ediv δ = 0 :=
          Int.ediv_eq_zero_of_lt (by omega) (by omega)
        rw [hdiv]
        simp [range_map_succ_shift]
    · rw [if_neg hle, if_neg hle]
      rfl

/-- The schedule loop with its adequacy fuel, in closed form. -/
theorem enum_times_closed (δ : Int) (hδ : 0 < δ) (e s : Int) :
    enum_times δ hδ e s =
      (List.range (if s ≤ e then ((e - s).ediv δ).toNat + 1 else 0)).map
        (fun k : Nat => s + (k : Int) * δ) :=
  etGo_closed δ hδ e (e + 1 - s).toNat s (Int.self_le_toNat _)

/-- C6 (corrected): IntervalEventJob.schedule materializes a concrete start
(shifted into the next interval when the stop template is not later than
now) and a concrete stop (shifted when it compares less than the start),
files an EventJob with the configured handler and value at the start plus
every multiple of the period through the stop inclusive, and finally files
the interval job itself under the stop time.  The stop shift is NOT one
period as the spec says: get_datetime shifts by one unit of the field just
above the template's most significant concrete field (see the
counterexample, where a minute template is shifted by one hour, not by the
30-second period). -/
theorem c6_interval_event_schedule (handler : String) (cfg : IntervalCfg)
    (now : Int) (tt : Timetable)
    (hδ : 0 < get_timedelta (job_time_parse cfg.period)) :
    interval_schedule handler cfg now tt hδ =
      interval_schedule_spec handler cfg now tt hδ := by
  unfold interval_schedule interval_schedule_spec
  cases hss : interval_start_stop cfg now with
  | none => rfl
  | some se =>
    dsimp only
    rw [enum_times_closed]

/-- C6 counterexample to the one-period stop shift: for the interval from
minute 50 to minute 5 every 30 seconds, evaluated at 2024-03-15 10:20:00,
the unshifted stop template materializes to 10:05:00 (before the 10:50:00
start), and the actual shifted stop is 11:05:00 — one hour later, not one
30-second period later. -/
theorem c6_counterexample :
    interval_start_stop c6ce_cfg c6ce_now = some (1710503400, 1710504300) ∧
    get_datetime (job_time_parse c6ce_cfg.stop) 0 1710503400 = some 1710500700 ∧
    get_timedelta (job_time_parse c6ce_cfg.period) = 30 ∧
    (1710504300 : Int) ≠ 1710500700 + 30 ∧
    (1710504300 : Int) = 1710500700 + 3600 := by
  decide

/-- The 30-second period of the witness interval is a positive duration. -/
theorem c6w_pos : 0 < get_timedelta (job_time_parse c6ce_cfg.period) := by
  decide

/-- Witness for C6: the loop-based schedule and its closed arithmetic form
agree on the concrete 10:50-to-11:05 interval, and the schedule is
non-vacuous there (both produce a timetable). -/
theorem c6_interval_event_schedule_witness :
    interval_schedule "h" c6ce_cfg c6ce_now [] c6w_pos =
      interval_schedule_spec "h" c6ce_cfg c6ce_now [] c6w_pos ∧
    (interval_schedule "h" c6ce_cfg c6ce_now [] c6w_pos).isSome = true :=
  ⟨c6_interval_event_schedule "h" c6ce_cfg c6ce_now [] c6w_pos, by decide⟩

/-- Digit characters print as digits. -/
theorem digitChar_isDigit (n : Nat) (h : n < 10) : (Nat.digitChar n).isDigit = true := by
  interval_cases n <;> decide

/-- Digit characters read back to their value. -/
theorem digitVal_digitChar (n : Nat) (h : n < 10) : digitVal (Nat.digitChar n) = n := by
  interval_cases n <;> decide

/-- Appending one digit multiplies the accumulated value by ten. -/
theorem digitsToNat_append_one (xs : List Char) (c : Char) :
    digitsToNat (xs ++ [c]) = digitsToNat xs * 10 + digitVal c := by
  unfold digitsToNat
  rw [List.foldl_append]
  rfl

/-- The decimal printer produces a nonempty all-digit string reading back to
its input, given adequate fuel. -/
theorem ntdGo_spec : ∀ (fuel n : Nat), n < fuel →
    (ntdGo fuel n).all Char.isDigit = true ∧ ntdGo fuel n ≠ [] ∧
    digitsToNat (ntdGo fuel n) = n := by
  intro fuel
  induction fuel with
  | zero => intro n h; exact absurd h (Nat.not_lt_zero n)
  | succ fuel ih =>
    intro n h
    have hstep : ntdGo (Nat.succ fuel) n = if n < 10 then [Nat.digitChar n]
        else ntdGo fuel (n / 10) ++ [Nat.digitChar (n % 10)] := rfl
    rw [hstep]
    by_cases h10 : n < 10
    · rw [if_pos h10]
      refine ⟨?_, by simp, ?_⟩
      · simp [digitChar_isDigit n h10]
      · show digitsToNat ([] ++ [Nat.digitChar n]) = n
        rw [digitsToNat_append_one]
        show 0 * 10 + digitVal (Nat.digitChar n) = n
        rw [digitVal_digitChar n h10]
        omega
    · rw [if_neg h10]
      have hdiv : n / 10 < n := Nat.div_lt_self (by omega) (by omega)
      obtain ⟨ha, hne, hv⟩ := ih (n / 10) (by omega)
      refine ⟨?_, by simp, ?_⟩
      · rw [List.all_append, ha]
        simp [digitChar_isDigit (n % 10) (Nat.mod_lt n (by omega))]
      · rw [digitsToNat_append_one, hv, digitVal_digitChar (n % 10) (Nat.mod_lt n (by omega))]
        omega

/-- The decimal printer: nonempty, all digits, reads back to its input. -/
theorem natToDigits_spec (n : Nat) :
    (natToDigits n).all Char.isDigit = true ∧ natToDigits n ≠ [] ∧
    digitsToNat (natToDigits n) = n :=
  ntdGo_spec (n + 1) n (Nat.lt_succ_self n)

/-- int() of a nonempty digit string is its value. -/
theorem pyInt_digits (cs : List Char) (h1 : cs ≠ []) (h2 : cs.all Char.isDigit = true) :
    pyInt cs = (digitsToNat cs : Int) := by
  unfold pyInt
  split
  · rename_i rest
    simp only [List.all_cons, Bool.and_eq_true] at h2
    exact absurd h2.1 (by decide)
  · rw [if_pos ⟨h1, h2⟩]

/-- int() of a minus sign before a nonempty digit string is the negated value. -/
theorem pyInt_minus (rest : List Char) (h1 : rest ≠ [])
    (h2 : rest.all Char.isDigit = true) :
    pyInt ('-' :: rest) = -(digitsToNat rest : Int) := by
  show (if rest ≠ [] ∧ rest.all Char.isDigit then -(digitsToNat rest : Int) else -1) = _
  rw [if_pos ⟨h1, h2⟩]

/-- A leading zero does not change the value. -/
theorem digitsToNat_cons_zero (ds : List Char) :
    digitsToNat ('0' :: ds) = digitsToNat ds := by
  show List.foldl (fun a c => a * 10 + digitVal c) (0 * 10 + digitVal '0') ds = _
  rfl

/-- Reparsing Python str() of an integer recovers the integer. -/
theorem pyInt_int_to_chars (n : Int) : pyInt (int_to_chars n) = n := by
  obtain ⟨ha, hne, hv⟩ := natToDigits_spec n.toNat
  obtain ⟨ha2, hne2, hv2⟩ := natToDigits_spec (-n).toNat
  unfold int_to_chars
  by_cases hneg : n < 0
  · rw [if_pos hneg, pyInt_minus _ hne2 ha2, hv2]
    omega
  · rw [if_neg hneg, pyInt_digits _ hne ha, hv]
    omega

/-- Reparsing a %02d rendering recovers the integer. -/
theorem pyInt_pad2 (n : Int) : pyInt (pad2 n) = n := by
  obtain ⟨ha, hne, hv⟩ := natToDigits_spec n.toNat
  obtain ⟨ha2, hne2, hv2⟩ := natToDigits_spec (-n).toNat
  unfold pad2
  by_cases hneg : n < 0
  · rw [if_pos hneg, pyInt_minus _ hne2 ha2, hv2]
    omega
  · rw [if_neg hneg]
    by_cases hsmall : n < 10
    · rw [if_pos hsmall]
      rw [pyInt_digits ('0' :: natToDigits n.toNat) (by simp)
        (by simp only [List.all_cons, ha]; decide)]
      rw [digitsToNat_cons_zero, hv]
      omega
    · rw [if_neg hsmall, pyInt_digits _ hne ha, hv]
      omega

/-- Searching below a bound inside the prefix ignores the suffix. -/
theorem pyRFind_left (P rest : List Char) (c : Char) :
    ∀ k, k ≤ P.length → pyRFind (P ++ rest) c k = pyRFind P c k := by
  intro k
  induction k with
  | zero => intro _; rfl
  | succ k ih =>
    intro hk
    show (if (P ++ rest).get? k = some c then (k : Int) else pyRFind (P ++ rest) c k) = _
    rw [List.get?_append (by omega)]
    show _ = (if P.get? k = some c then (k : Int) else pyRFind P c k)
    rw [ih (by omega)]

/-- rfind misses when the character is absent below the bound. -/
theorem pyRFind_none (P : List Char) (c : Char) (hP : ∀ x ∈ P, x ≠ c) :
    ∀ k, k ≤ P.length → pyRFind P c k = -1 := by
  intro k
  induction k with
  | zero => intro _; rfl
  | succ k ih =>
    intro hk
    show (if P.get? k = some c then (k : Int) else pyRFind P c k) = -1
    cases hg : P.get? k with
    | none => rw [if_neg (by simp)]; exact ih (by omega)
    | some x =>
      have hx : x ≠ c := hP x (List.get?_mem hg)
      rw [if_neg (by intro h2; injection h2 with h3; exact hx h3)]
      exact ih (by omega)

/-- rfind hits the delimiter splitting off a clean suffix. -/
theorem pyRFind_found (P S : List Char) (c : Char) (hS : ∀ x ∈ S, x ≠ c) :
    ∀ j, j ≤ S.length → pyRFind (P ++ c :: S) c (P.length + 1 + j) = (P.length : Int) := by
  intro j
  induction j with
  | zero =>
    intro _
    show (if (P ++ c :: S).get? P.length = some c then (P.length : Int) else _) = _
    rw [List.get?_append_right (le_refl P.length)]
    simp
  | succ j ih =>
    intro hj
    show (if (P ++ c :: S).get? (P.length + 1 + j) = some c then _ else
      pyRFind (P ++ c :: S) c (P.length + 1 + j)) = _
    rw [List.get?_append_right (by omega)]
    have hidx : P.length + 1 + j - P.length = j + 1 := by omega
    rw [hidx]
    show (if S.get? j = some c then _ else _) = _
    cases hg : S.get? j with
    | none => rw [if_neg (by simp)]; exact ih (by omega)
    | some x =>
      have hx : x ≠ c := hS x (List.get?_mem hg)
      rw [if_neg (by intro h2; injection h2 with h3; exact hx h3)]
      exact ih (by omega)

/-- Parser.get on an exhausted input. -/
theorem pget_neg (cs : List Char) (c : Char) (posEnd : Int) (h : posEnd < 0) :
    pget cs c posEnd = (-1, posEnd) := by
  unfold pget
  rw [if_neg (by omega)]

/-- Parser.get with the end bound inside the prefix ignores the suffix. -/
theorem pget_left (P rest : List Char) (c : Char) (posEnd : Int)
    (h : posEnd ≤ (P.length : Int)) :
    pget (P ++ rest) c posEnd = pget P c posEnd := by
  by_cases h0 : 0 ≤ posEnd
  · unfold pget
    rw [if_pos h0, if_pos h0]
    have hk : posEnd.toNat ≤ P.length := by omega
    dsimp only
    rw [pyRFind_left P rest c posEnd.toNat hk]
    have hsl : pySlice (P ++ rest) (pyRFind P c posEnd.toNat + 1) posEnd =
        pySlice P (pyRFind P c posEnd.toNat + 1) posEnd := by
      unfold pySlice
      rw [List.take_append_eq_append_take]
      have ht : posEnd.toNat - P.length = 0 := by omega
      rw [ht, List.take_zero, List.append_nil]
    rw [hsl]
  · rw [pget_neg _ _ _ (by omega), pget_neg _ _ _ (by omega)]

/-- Parser.get at a delimiter with a clean suffix: parses the suffix and
moves the bound onto the delimiter. -/
theorem pget_split (P S : List Char) (c : Char) (hS : ∀ x ∈ S, x ≠ c) :
    pget (P ++ c :: S) c (((P ++ c :: S).length : Nat) : Int) =
      (pyInt S, (P.length : Int)) := by
  unfold pget
  rw [if_pos (by positivity)]
  have hlen : ((((P ++ c :: S).length : Nat) : Int)).toNat = P.length + 1 + S.length := by
    simp [List.length_append]
    omega
  dsimp only
  rw [hlen, pyRFind_found P S c hS S.length (le_refl _)]
  have hsl : pySlice (P ++ c :: S) ((P.length : Int) + 1) (((P ++ c :: S).length : Nat) : Int) =
      S := by
    unfold pySlice
    have h1 : ((((P ++ c :: S).length : Nat) : Int)).toNat = (P ++ c :: S).length := by
      omega
    rw [h1, List.take_length]
    have h2 : (((P.length : Int)) + 1).toNat = (P ++ [c]).length := by
      simp
    rw [h2]
    have h3 : P ++ c :: S = (P ++ [c]) ++ S := by simp
    rw [h3, List.drop_left]
  rw [hsl]

/-- Parser.get with no delimiter below the bound: parses the whole prefix and
exhausts the input. -/
theorem pget_nodelim (P : List Char) (c : Char) (hP : ∀ x ∈ P, x ≠ c) :
    pget P c ((P.length : Nat) : Int) = (pyInt P, -1) := by
  unfold pget
  rw [if_pos (by positivity)]
  have hk : (((P.length : Nat) : Int)).toNat = P.length := by omega
  dsimp only
  rw [hk, pyRFind_none P c hP P.length (le_refl _)]
  have hsl : pySlice P (-1 + 1) ((P.length : Nat) : Int) = P := by
    unfold pySlice
    rw [hk, List.take_length]
    show P.drop (Int.toNat 0) = P
    rfl
  rw [hsl]

/-- Parsing a five-delimiter time string with clean groups: the six fields
are the int() readings of the six groups, right to left. -/
theorem jt_shape5 (A B C D E F : List Char)
    (hA : ∀ x ∈ A, x ≠ ':') (hB : ∀ x ∈ B, x ≠ ':') (hC : ∀ x ∈ C, x ≠ ':')
    (hD : ∀ x ∈ D, x ≠ ':') (hE : ∀ x ∈ E, x ≠ ':') (hF : ∀ x ∈ F, x ≠ '.') :
    job_time_of_chars
      (A ++ ':' :: (B ++ ':' :: (C ++ ':' :: (D ++ ':' :: (E ++ '.' :: F))))) =
      { year := pyInt A, month := pyInt B, day := pyInt C, hour := pyInt D,
        minute := pyInt E, second := pyInt F, is_template := pyInt A == -1 } := by
  have hmem : '.' ∈ A ++ ':' :: (B ++ ':' :: (C ++ ':' :: (D ++ ':' :: (E ++ '.' :: F)))) := by
    simp
  have hdot : (A ++ ':' :: (B ++ ':' :: (C ++ ':' :: (D ++ ':' :: (E ++ '.' :: F))))).contains
      '.' = true := List.elem_eq_true_of_mem hmem
  have e1 : pget (A ++ ':' :: (B ++ ':' :: (C ++ ':' :: (D ++ ':' :: (E ++ '.' :: F))))) '.'
      (((A ++ ':' :: (B ++ ':' :: (C ++ ':' :: (D ++ ':' :: (E ++ '.' :: F))))).length : Int)) =
      (pyInt F, (((A ++ ':' :: (B ++ ':' :: (C ++ ':' :: (D ++ ':' :: E))))).length : Int)) := by
    have hassoc : A ++ ':' :: (B ++ ':' :: (C ++ ':' :: (D ++ ':' :: (E ++ '.' :: F)))) =
        (A ++ ':' :: (B ++ ':' :: (C ++ ':' :: (D ++ ':' :: E)))) ++ '.' :: F := by
      simp
    rw [hassoc]
    exact pget_split _ F '.' hF
  have e2 : pget (A ++ ':' :: (B ++ ':' :: (C ++ ':' :: (D ++ ':' :: (E ++ '.' :: F))))) ':'
      (((A ++ ':' :: (B ++ ':' :: (C ++ ':' :: (D ++ ':' :: E))))).length : Int) =
      (pyInt E, ((((A ++ ':' :: (B ++ ':' :: (C ++ ':' :: D))))).length : Int)) := by
    have hassoc : A ++ ':' :: (B ++ ':' :: (C ++ ':' :: (D ++ ':' :: (E ++ '.' :: F)))) =
        (A ++ ':' :: (B ++ ':' :: (C ++ ':' :: (D ++ ':' :: E)))) ++ '.' :: F := by
      simp
    rw [hassoc, pget_left _ _ ':' _ (le_refl _)]
    have hassoc2 : A ++ ':' :: (B ++ ':' :: (C ++ ':' :: (D ++ ':' :: E))) =
        (A ++ ':' :: (B ++ ':' :: (C ++ ':' :: D))) ++ ':' :: E := by
      simp
    rw [hassoc2]
    exact pget_split _ E ':' hE
  have e3 : pget (A ++ ':' :: (B ++ ':' :: (C ++ ':' :: (D ++ ':' :: (E ++ '.' :: F))))) ':'
      (((A ++ ':' :: (B ++ ':' :: (C ++ ':' :: D)))).length : Int) =
      (pyInt D, ((((A ++ ':' :: (B ++ ':' :: C)))).length : Int)) := by
    have hassoc : A ++ ':' :: (B ++ ':' :: (C ++ ':' :: (D ++ ':' :: (E ++ '.' :: F)))) =
        (A ++ ':' :: (B ++ ':' :: (C ++ ':' :: D))) ++ ':' :: (E ++ '.' :: F) := by
      simp
    rw [hassoc, pget_left _ _ ':' _ (le_refl _)]
    have hassoc2 : A ++ ':' :: (B ++ ':' :: (C ++ ':' :: D)) =
        (A ++ ':' :: (B ++ ':' :: C)) ++ ':' :: D := by
      simp
    rw [hassoc2]
    exact pget_split _ D ':' hD
  have e4 : pget (A ++ ':' :: (B ++ ':' :: (C ++ ':' :: (D ++ ':' :: (E ++ '.' :: F))))) ':'
      (((A ++ ':' :: (B ++ ':' :: C))).length : Int) =
      (pyInt C, (((A ++ ':' :: B)).length : Int)) := by
    have hassoc : A ++ ':' :: (B ++ ':' :: (C ++ ':' :: (D ++ ':' :: (E ++ '.' :: F)))) =
        (A ++ ':' :: (B ++ ':' :: C)) ++ ':' :: (D ++ ':' :: (E ++ '.' :: F)) := by
      simp
    rw [hassoc, pget_left _ _ ':' _ (le_refl _)]
    have hassoc2 : A ++ ':' :: (B ++ ':' :: C) = (A ++ ':' :: B) ++ ':' :: C := by
      simp
    rw [hassoc2]
    exact pget_split _ C ':' hC
  have e5 : pget (A ++ ':' :: (B ++ ':' :: (C ++ ':' :: (D ++ ':' :: (E ++ '.' :: F))))) ':'
      (((A ++ ':' :: B)).length : Int) = (pyInt B, ((A.length : Nat) : Int)) := by
    have hassoc : A ++ ':' :: (B ++ ':' :: (C ++ ':' :: (D ++ ':' :: (E ++ '.' :: F)))) =
        (A ++ ':' :: B) ++ ':' :: (C ++ ':' :: (D ++ ':' :: (E ++ '.' :: F))) := by
      simp
    rw [hassoc, pget_left _ _ ':' _ (le_refl _)]
    exact pget_split A B ':' hB
  have e6 : pget (A ++ ':' :: (B ++ ':' :: (C ++ ':' :: (D ++ ':' :: (E ++ '.' :: F))))) ':'
      ((A.length : Nat) : Int) = (pyInt A, -1) := by
    have hassoc : A ++ ':' :: (B ++ ':' :: (C ++ ':' :: (D ++ ':' :: (E ++ '.' :: F)))) =
        A ++ ':' :: (B ++ ':' :: (C ++ ':' :: (D ++ ':' :: (E ++ '.' :: F)))) := rfl
    rw [pget_left A _ ':' _ (le_refl _)]
    exact pget_nodelim A ':' hA
  unfold job_time_of_chars
  rw [if_pos hdot]
  dsimp only
  rw [e1]
  dsimp only
  rw [e2]
  dsimp only
  rw [e3]
  dsimp only
  rw [e4]
  dsimp only
  rw [e5]
  dsimp only
  rw [e6]

/-- Digit strings avoid any non-digit character. -/
theorem natToDigits_ne (m : Nat) (c : Char) (hc : c.isDigit = false) :
    ∀ x ∈ natToDigits m, x ≠ c := by
  intro x hx he
  have h2 := List.all_eq_true.mp (natToDigits_spec m).1 x hx
  rw [he, hc] at h2
  exact absurd h2 (by simp)

/-- str() of an integer avoids any character that is neither a digit nor the
minus sign. -/
theorem int_to_chars_ne (n : Int) (c : Char) (hc : c.isDigit = false)
    (hm : c ≠ '-') : ∀ x ∈ int_to_chars n, x ≠ c := by
  intro x hx
  unfold int_to_chars at hx
  by_cases hneg : n < 0
  · rw [if_pos hneg] at hx
    rcases List.mem_cons.mp hx with he | hx2
    · rw [he]; exact fun h2 => hm h2.symm
    · exact natToDigits_ne _ c hc x hx2
  · rw [if_neg hneg] at hx
    exact natToDigits_ne _ c hc x hx

/-- %02d renderings avoid any character that is neither a digit nor the
minus sign. -/
theorem pad2_ne (n : Int) (c : Char) (hc : c.isDigit = false)
    (hm : c ≠ '-') : ∀ x ∈ pad2 n, x ≠ c := by
  intro x hx
  unfold pad2 at hx
  by_cases hneg : n < 0
  · rw [if_pos hneg] at hx
    rcases List.mem_cons.mp hx with he | hx2
    · rw [he]; exact fun h2 => hm h2.symm
    · exact natToDigits_ne _ c hc x hx2
  · rw [if_neg hneg] at hx
    by_cases hsmall : n < 10
    · rw [if_pos hsmall] at hx
      rcases List.mem_cons.mp hx with he | hx2
      · rw [he]
        intro h2
        rw [← h2] at hc
        exact absurd hc (by decide)
      · exact natToDigits_ne _ c hc x hx2
    · rw [if_neg hsmall] at hx
      exact natToDigits_ne _ c hc x hx

/-- Re-parsing the formatted rendering of a template recovers its six fields
(and the template flag), provided no dated field sits below the -1 wildcard
floor — which holds for every template obtained by parsing. -/
theorem reparse_format (t : JobTime)
    (hy : -1 ≤ t.year) (hmo : -1 ≤ t.month) (hd : -1 ≤ t.day)
    (hh : -1 ≤ t.hour) (hmi : -1 ≤ t.minute) :
    job_time_of_chars (job_time_to_chars t) =
      { year := t.year, month := t.month, day := t.day, hour := t.hour,
        minute := t.minute, second := t.second, is_template := t.year == -1 } := by
  have h5 := jt_shape5
    (if t.year > -1 then int_to_chars t.year else ['*', '*', '*', '*'])
    (if t.month > -1 then pad2 t.month else ['*', '*'])
    (if t.day > -1 then pad2 t.day else ['*', '*'])
    (if t.hour > -1 then pad2 t.hour else ['*', '*'])
    (if t.minute > -1 then pad2 t.minute else ['*', '*'])
    (pad2 t.second)
    (by
      by_cases hc : t.year > -1
      · rw [if_pos hc]; exact int_to_chars_ne t.year ':' (by decide) (by decide)
      · rw [if_neg hc]; decide)
    (by
      by_cases hc : t.month > -1
      · rw [if_pos hc]; exact pad2_ne t.month ':' (by decide) (by decide)
      · rw [if_neg hc]; decide)
    (by
      by_cases hc : t.day > -1
      · rw [if_pos hc]; exact pad2_ne t.day ':' (by decide) (by decide)
      · rw [if_neg hc]; decide)
    (by
      by_cases hc : t.hour > -1
      · rw [if_pos hc]; exact pad2_ne t.hour ':' (by decide) (by decide)
      · rw [if_neg hc]; decide)
    (by
      by_cases hc : t.minute > -1
      · rw [if_pos hc]; exact pad2_ne t.minute ':' (by decide) (by decide)
      · rw [if_neg hc]; decide)
    (pad2_ne t.second '.' (by decide) (by decide))
  have hform : job_time_to_chars t =
      (if t.year > -1 then int_to_chars t.year else ['*', '*', '*', '*']) ++ ':' ::
      ((if t.month > -1 then pad2 t.month else ['*', '*']) ++ ':' ::
      ((if t.day > -1 then pad2 t.day else ['*', '*']) ++ ':' ::
      ((if t.hour > -1 then pad2 t.hour else ['*', '*']) ++ ':' ::
      ((if t.minute > -1 then pad2 t.minute else ['*', '*']) ++ '.' ::
      pad2 t.second)))) := by
    unfold job_time_to_chars
    simp
  rw [hform, h5]
  have gy : pyInt (if t.year > -1 then int_to_chars t.year else ['*', '*', '*', '*']) =
      t.year := by
    by_cases hc : t.year > -1
    · rw [if_pos hc, pyInt_int_to_chars]
    · rw [if_neg hc]
      have h2 : t.year = -1 := by omega
      rw [h2]
      decide
  have gmo : pyInt (if t.month > -1 then pad2 t.month else ['*', '*']) = t.month := by
    by_cases hc : t.month > -1
    · rw [if_pos hc, pyInt_pad2]
    · rw [if_neg hc]
      have h2 : t.month = -1 := by omega
      rw [h2]
      decide
  have gd : pyInt (if t.day > -1 then pad2 t.day else ['*', '*']) = t.day := by
    by_cases hc : t.day > -1
    · rw [if_pos hc, pyInt_pad2]
    · rw [if_neg hc]
      have h2 : t.day = -1 := by omega
      rw [h2]
      decide
  have gh : pyInt (if t.hour > -1 then pad2 t.hour else ['*', '*']) = t.hour := by
    by_cases hc : t.hour > -1
    · rw [if_pos hc, pyInt_pad2]
    · rw [if_neg hc]
      have h2 : t.hour = -1 := by omega
      rw [h2]
      decide
  have gmi : pyInt (if t.minute > -1 then pad2 t.minute else ['*', '*']) = t.minute := by
    by_cases hc : t.minute > -1
    · rw [if_pos hc, pyInt_pad2]
    · rw [if_neg hc]
      have h2 : t.minute = -1 := by omega
      rw [h2]
      decide
  rw [gy, gmo, gd, gh, gmi, pyInt_pad2]

/-- int() of a minus-free string never sits below the wildcard floor. -/
theorem pyInt_ge (cs : List Char) (h : '-' ∉ cs) : -1 ≤ pyInt cs := by
  unfold pyInt
  split
  · rename_i rest
    exact absurd (List.mem_cons_self '-' rest) h
  · split
    · omega
    · omega

/-- Parser.get over a minus-free input yields a field at or above the
wildcard floor. -/
theorem pget_ge (cs : List Char) (c : Char) (posEnd : Int) (h : '-' ∉ cs) :
    -1 ≤ (pget cs c posEnd).1 := by
  unfold pget
  split
  · dsimp only
    apply pyInt_ge
    intro hmem
    unfold pySlice at hmem
    exact h (List.take_subset _ cs (List.drop_subset _ _ hmem))
  · dsimp only
    omega

/-- The five dated fields of a parse of a minus-free string sit at or above
the wildcard floor. -/
theorem jt_fields_ge (cs0 : List Char) (h : '-' ∉ cs0) :
    -1 ≤ (job_time_of_chars cs0).year ∧ -1 ≤ (job_time_of_chars cs0).month ∧
    -1 ≤ (job_time_of_chars cs0).day ∧ -1 ≤ (job_time_of_chars cs0).hour ∧
    -1 ≤ (job_time_of_chars cs0).minute := by
  have hcs : '-' ∉ (if cs0.contains '.' then cs0 else cs0 ++ ['.', '0']) := by
    split
    · exact h
    · intro hm
      rcases List.mem_append.mp hm with h1 | h1
      · exact h h1
      · simp at h1
  unfold job_time_of_chars
  dsimp only
  exact ⟨pget_ge _ _ _ hcs, pget_ge _ _ _ hcs, pget_ge _ _ _ hcs,
    pget_ge _ _ _ hcs, pget_ge _ _ _ hcs⟩

/-- Fixed-width zero-padded groups are all digits. -/
theorem padL_digits (w n : Nat) : ∀ x ∈ padL w n, x.isDigit = true := by
  intro x hx
  unfold padL at hx
  rcases List.mem_append.mp hx with h1 | h1
  · rw [List.eq_of_mem_replicate h1]
    decide
  · exact List.all_eq_true.mp (natToDigits_spec n).1 x h1

/-- Characters of an optional delimited group are digits or the delimiter. -/
theorem mem_opt_chunk (o : Option Nat) (w : Nat) (d : Char) (x : Char)
    (h : x ∈ (match o with | some y => padL w y ++ [d] | none => [])) :
    x.isDigit = true ∨ x = d := by
  cases o with
  | none => exact absurd h (by simp)
  | some y =>
    rcases List.mem_append.mp h with h1 | h1
    · exact Or.inl (padL_digits w y x h1)
    · rcases List.mem_cons.mp h1 with h2 | h2
      · exact Or.inr h2
      · exact absurd h2 (by simp)

/-- Grammar strings contain no minus sign. -/
theorem render_grammar_no_minus (yr mo dy hr : Option Nat) (mi : Nat)
    (se : Option Nat) : '-' ∉ render_grammar yr mo dy hr mi se := by
  intro hm
  unfold render_grammar at hm
  rcases List.mem_append.mp hm with h1 | h1
  · rcases List.mem_append.mp h1 with h2 | h2
    · rcases List.mem_append.mp h2 with h3 | h3
      · rcases List.mem_append.mp h3 with h4 | h4
        · rcases List.mem_append.mp h4 with h5 | h5
          · rcases mem_opt_chunk yr 4 ':' '-' h5 with h6 | h6
            · exact absurd h6 (by decide)
            · exact absurd h6 (by decide)
          · rcases mem_opt_chunk mo 2 ':' '-' h5 with h6 | h6
            · exact absurd h6 (by decide)
            · exact absurd h6 (by decide)
        · rcases mem_opt_chunk dy 2 ':' '-' h4 with h6 | h6
          · exact absurd h6 (by decide)
          · exact absurd h6 (by decide)
      · rcases mem_opt_chunk hr 2 ':' '-' h3 with h6 | h6
        · exact absurd h6 (by decide)
        · exact absurd h6 (by decide)
    · exact absurd (padL_digits 2 mi '-' h2) (by decide)
  · cases se with
    | none => exact absurd h1 (by simp)
    | some x =>
      rcases List.mem_cons.mp h1 with h2 | h2
      · exact absurd h2 (by decide)
      · exact absurd (padL_digits 2 x '-' h2) (by decide)

/-- The template flag of a parsed string is the wildcard test on its year. -/
theorem jt_is_template_eq (cs0 : List Char) :
    (job_time_of_chars cs0).is_template = ((job_time_of_chars cs0).year == -1) := by
  unfold job_time_of_chars
  dsimp only

/-- C7: for every time string matching the documented grammar
[[[[YYYY:]MM:]DD:]hh:]mm[.ss], formatting the parsed JobTime with __str__
and re-parsing the result reproduces the parsed template exactly (all six
fields, and with them the template flag); in particular "01:05" parses to
hour 1 and minute 5 with day, month and year wildcard, and "01:05.30"
additionally carries second 30. -/
theorem c7_jobtime_roundtrip :
    (∀ cs : List Char, matches_grammar cs →
      job_time_of_chars (job_time_to_chars (job_time_of_chars cs)) =
        job_time_of_chars cs) ∧
    ((job_time_parse "01:05").hour = 1 ∧ (job_time_parse "01:05").minute = 5 ∧
      (job_time_parse "01:05").day = -1 ∧ (job_time_parse "01:05").month = -1 ∧
      (job_time_parse "01:05").year = -1) ∧
    ((job_time_parse "01:05.30").hour = 1 ∧ (job_time_parse "01:05.30").minute = 5 ∧
      (job_time_parse "01:05.30").second = 30) := by
  refine ⟨?_, by decide, by decide⟩
  intro cs hg
  obtain ⟨yr, mo, dy, hr, mi, se, -, -, -, -, -, -, -, -, -, hre⟩ := hg
  have hmf : '-' ∉ cs := by
    rw [hre]
    exact render_grammar_no_minus yr mo dy hr mi se
  obtain ⟨gy, gmo, gd, gh, gmi⟩ := jt_fields_ge cs hmf
  rw [reparse_format (job_time_of_chars cs) gy gmo gd gh gmi]
  rw [← jt_is_template_eq cs]

/-- Witness for C7: "01:05" is in the grammar (hour group 01, minute group
05), and the theorem applied to it gives the format/parse round trip; the
"01:05.30" conjunct is exercised on its second field. -/
theorem c7_jobtime_roundtrip_witness :
    matches_grammar ("01:05".data) ∧
    job_time_of_chars (job_time_to_chars (job_time_of_chars "01:05".data)) =
      job_time_of_chars "01:05".data ∧
    (job_time_parse "01:05.30").second = 30 := by
  have hgram : matches_grammar ("01:05".data) := by
    refine ⟨none, none, none, some 1, 5, none, ?_, ?_, ?_, ?_, ?_, ?_, ?_, ?_, ?_, ?_⟩
    · simp
    · simp
    · simp
    · simp
    · simp
    · simp
    · intro x hx
      simp at hx
      omega
    · omega
    · simp
    · decide
  exact ⟨hgram, c7_jobtime_roundtrip.1 "01:05".data hgram,
    c7_jobtime_roundtrip.2.2.2.2⟩

end KHome
